import Mathlib

/-!
# Verification of the pharma-retail stock reconciliation engine

Shallow embedding of the document-mutation core of the repository
(`App.tsx`: `handleGenerateBill`, `handleUpdateBill`, `handleDeleteBill`,
`handleAddPurchase`, `handleUpdatePurchase`, `handleDeletePurchase`, and the
billing cart of `PaymentEntry.tsx`), together with proofs about the claims of
the specification.

Modelling conventions:
* Firestore documents become Lean structures; the per-user `products`
  collection is a `List Product`.
* A Firestore `writeBatch` is a list of writes applied in order at commit
  time; a later write to the same document field overwrites an earlier one.
* JS `number` quantities/stocks are modelled as `Int` (they are integral in
  the program); prices and GST percentages as `Rat`.
* An operation that aborts before `commit` (returning `null`) is modelled as
  `none`: no write is applied.
-/

namespace Pharma

/-- `Batch` from `types.ts`. -/
structure Batch where
  id : String
  batchNumber : String
  expiryDate : String
  stock : Int
  mrp : Rat
  purchasePrice : Rat
deriving DecidableEq, Repr

/-- `Product` from `types.ts`. -/
structure Product where
  id : String
  name : String
  company : String
  hsnCode : String
  gst : Rat
  composition : String
  batches : List Batch
deriving DecidableEq, Repr

/-- `CartItem` from `types.ts` (a line of a bill). -/
structure CartItem where
  productId : String
  productName : String
  composition : String
  batchId : String
  batchNumber : String
  expiryDate : String
  hsnCode : String
  quantity : Int
  mrp : Rat
  gst : Rat
  total : Rat
deriving DecidableEq, Repr

/-- `PurchaseLineItem` from `types.ts`.  The optional `productId`/`batchId`
fields are modelled as strings where `""` plays the role of
`undefined` (the JS code tests them for truthiness). -/
structure PurchaseLineItem where
  isNewProduct : Bool
  productName : String
  company : String
  hsnCode : String
  gst : Rat
  composition : String
  productId : String
  batchId : String
  batchNumber : String
  expiryDate : String
  quantity : Int
  mrp : Rat
  purchasePrice : Rat
deriving DecidableEq, Repr

/-- `products.find(p => p.id === productId)`. -/
def findProduct (ps : List Product) (pid : String) : Option Product :=
  ps.find? fun p => decide (p.id = pid)

/-- One committed `fbBatch.update(productRef, { batches: ... })` write:
the target document id and the new value of its `batches` field. -/
abbrev BatchesWrite := String × List Batch

/-- Effect of a single `update(productRef, { batches })` on the collection:
the document with that id gets the new batches array. -/
def setBatches (ps : List Product) (pid : String) (bs : List Batch) : List Product :=
  ps.map fun p => if p.id = pid then { p with batches := bs } else p

/-- Committing a write batch: the writes are applied in order, so a later
write to the same document overwrites an earlier one. -/
def applyWrites (ps : List Product) (ws : List BatchesWrite) : List Product :=
  ws.foldl (fun acc w => setBatches acc w.1 w.2) ps

/-- The value of the last write in `ws` that targets document `q`, if any. -/
def lastWrite : List BatchesWrite → String → Option (List Batch)
  | [], _ => none
  | w :: ws, q =>
    match lastWrite ws q with
    | some r => some r
    | none => if w.1 = q then some w.2 else none

/-- The effect of one element write on each list element, as a function. -/
def writeFn (pid : String) (bs : List Batch) (p : Product) : Product :=
  if p.id = pid then { p with batches := bs } else p

/-- The cumulative per-element effect of a write batch. -/
def writesFn (ws : List BatchesWrite) (p : Product) : Product :=
  match lastWrite ws p.id with
  | some bs => { p with batches := bs }
  | none => p

/-! ## Sale transaction engine (`handleGenerateBill`, `handleDeleteBill`,
`handleUpdateBill` from `App.tsx`) -/

/-- Batches after `handleGenerateBill`'s
`product.batches.map(b => b.id === item.batchId ? { ...b, stock: b.stock - item.quantity } : b)`. -/
def decBatches (bs : List Batch) (batchId : String) (q : Int) : List Batch :=
  bs.map fun b => if b.id = batchId then { b with stock := b.stock - q } else b

/-- Batches after `handleDeleteBill`'s
`product.batches.map(b => b.id === item.batchId ? { ...b, stock: b.stock + item.quantity } : b)`. -/
def incBatches (bs : List Batch) (batchId : String) (q : Int) : List Batch :=
  bs.map fun b => if b.id = batchId then { b with stock := b.stock + q } else b

/-- The product writes emitted by `handleGenerateBill`'s loop over
`billData.items`: each item whose product is found in the snapshot
contributes one full overwrite of that product's `batches` field, computed
from the (unchanging) snapshot. -/
def genBillWrites (ps : List Product) (items : List CartItem) : List BatchesWrite :=
  items.filterMap fun item =>
    (findProduct ps item.productId).map fun p =>
      (p.id, decBatches p.batches item.batchId item.quantity)

/-- The committed `products` collection after a successful
`handleGenerateBill` (stock effect only; the created bill document is not
part of the products collection). -/
def generateBillProducts (ps : List Product) (items : List CartItem) : List Product :=
  applyWrites ps (genBillWrites ps items)

/-- The product writes emitted by `handleDeleteBill`'s loop over
`bill.items`; items whose product is missing are skipped (warned, not fatal). -/
def delBillWrites (ps : List Product) (items : List CartItem) : List BatchesWrite :=
  items.filterMap fun item =>
    (findProduct ps item.productId).map fun p =>
      (p.id, incBatches p.batches item.batchId item.quantity)

/-- The committed `products` collection after `handleDeleteBill`. -/
def deleteBillProducts (ps : List Product) (items : List CartItem) : List Product :=
  applyWrites ps (delBillWrites ps items)

/-- One entry of `handleUpdateBill`'s `stockChanges` map:
`batchId ↦ (productId, netChange)`. -/
abbrev ChangeEntry := String × String × Int

/-- `stockChanges.set(item.batchId, existing)` where `existing` is the
looked-up entry (keeping its original `productId`) with
`existing.change += item.quantity * sign`; a JS `Map` keeps insertion order
and updates in place. -/
def addChange : List ChangeEntry → CartItem → Int → List ChangeEntry
  | [], item, sign => [(item.batchId, item.productId, item.quantity * sign)]
  | e :: rest, item, sign =>
    if e.1 = item.batchId then (e.1, e.2.1, e.2.2 + item.quantity * sign) :: rest
    else e :: addChange rest item sign

/-- `handleUpdateBill`'s netting pass: `+1` for every original item, `-1`
for every updated item. -/
def stockChangeList (orig upd : List CartItem) : List ChangeEntry :=
  upd.foldl (fun m it => addChange m it (-1))
    (orig.foldl (fun m it => addChange m it 1) [])

/-- `newBatches` inside `handleUpdateBill`'s loop: the found product's
batches with the net change applied to the named batch. -/
def applyNet (bs : List Batch) (batchId : String) (change : Int) : List Batch :=
  bs.map fun b => if b.id = batchId then { b with stock := b.stock + change } else b

/-- `handleUpdateBill`'s main loop over `stockChanges.entries()`: skip zero
deltas, abort (`return null`) on a missing product, abort when the updated
product would contain a negative-stock batch, otherwise record the product
write.  `none` means the function returned before `fbBatch.commit()`, so no
write is applied at all. -/
def updateBillWrites (ps : List Product) : List ChangeEntry → Option (List BatchesWrite)
  | [] => some []
  | (batchId, productId, change) :: rest =>
    if change = 0 then updateBillWrites ps rest
    else
      match findProduct ps productId with
      | none => none
      | some p =>
        if (applyNet p.batches batchId change).any fun b => decide (b.stock < 0) then none
        else ((productId, applyNet p.batches batchId change) :: ·) <$> updateBillWrites ps rest

/-- The committed `products` collection after `handleUpdateBill`
(`none` = the edit failed and nothing was written). -/
def updateBillProducts (ps : List Product) (orig upd : List CartItem) :
    Option (List Product) :=
  (updateBillWrites ps (stockChangeList orig upd)).map (applyWrites ps)

/-! ## Purchase transaction engine (`handleAddPurchase`, `handleUpdatePurchase`,
`handleDeletePurchase` from `App.tsx`) -/

/-- `` `batch_${uniqueIdSuffix()}` `` — synthetic batch id.  The
timestamp-plus-random suffix is modelled by a per-call counter; the source
relies on these suffixes never colliding. -/
def freshBatchId (n : Nat) : String := "batch_" ++ toString n

/-- Document id allocated by `doc(collection(db, '.../products'))` for a
newly created product. -/
def freshProductId (n : Nat) : String := "newprod_" ++ toString n

/-- A batch of line-item `Batch` field values
(`{ id, batchNumber, expiryDate, stock: quantity, mrp, purchasePrice }`). -/
def newBatchOfLine (bid : String) (item : PurchaseLineItem) : Batch :=
  { id := bid
    batchNumber := item.batchNumber
    expiryDate := item.expiryDate
    stock := item.quantity
    mrp := item.mrp
    purchasePrice := item.purchasePrice }

/-- The product document created for an `isNewProduct` line. -/
def newProductOfLine (pid bid : String) (item : PurchaseLineItem) : Product :=
  { id := pid
    name := item.productName
    company := item.company
    hsnCode := item.hsnCode
    gst := item.gst
    composition := item.composition
    batches := [newBatchOfLine bid item] }

/-- One write of `handleAddPurchase`'s `fbBatch`: `set` of a new product
document, full overwrite of a product's `batches` array, or an `arrayUnion`
append of one batch. -/
inductive ProductWrite where
  | create (p : Product)
  | replace (pid : String) (bs : List Batch)
  | union (pid : String) (b : Batch)
deriving DecidableEq, Repr

/-- Applying one write at commit time.  `set` creates the document
(overwriting a document that would already carry the same id);
`arrayUnion` appends the batch unless an identical element is present. -/
def applyProductWrite (ps : List Product) : ProductWrite → List Product
  | .create p =>
    if ps.any fun x => decide (x.id = p.id) then
      ps.map fun x => if x.id = p.id then p else x
    else ps ++ [p]
  | .replace pid bs => setBatches ps pid bs
  | .union pid b =>
    ps.map fun x =>
      if x.id = pid then
        { x with batches := if b ∈ x.batches then x.batches else x.batches ++ [b] }
      else x

def applyProductWrites (ps : List Product) (ws : List ProductWrite) : List Product :=
  ws.foldl applyProductWrite ps

/-- Outcome of processing one line of `handleAddPurchase`'s loop: the id
counter after the line, the writes staged on the batch, and the resolved
line pushed onto `itemsWithIds` (if any — a line referencing a missing
product is `continue`d past the push). -/
structure LineOutcome where
  ctr : Nat
  writes : List ProductWrite
  saved : Option PurchaseLineItem
deriving Repr

/-- One iteration of `handleAddPurchase`'s `for (const item of
purchaseData.items)`, resolving the line against the (unchanging) snapshot. -/
def addPurchaseLine (ps : List Product) (ctr : Nat) (item : PurchaseLineItem) :
    LineOutcome :=
  if item.isNewProduct then
    let bid := freshBatchId ctr
    let pid := freshProductId ctr
    { ctr := ctr + 1
      writes := [.create (newProductOfLine pid bid item)]
      saved := some { item with productId := pid, batchId := bid, isNewProduct := false } }
  else if item.productId ≠ "" then
    match findProduct ps item.productId with
    | none => { ctr := ctr, writes := [], saved := none }
    | some p =>
      match p.batches.find? (fun b => decide (b.batchNumber = item.batchNumber)) with
      | some existingBatch =>
        let updatedBatches := p.batches.map fun b =>
          if b.id = existingBatch.id then
            { b with
              stock := b.stock + item.quantity
              mrp := item.mrp
              purchasePrice := item.purchasePrice
              expiryDate := item.expiryDate }
          else b
        { ctr := ctr
          writes := [.replace item.productId updatedBatches]
          saved := some { item with batchId := existingBatch.id } }
      | none =>
        let bid := freshBatchId ctr
        { ctr := ctr + 1
          writes := [.union item.productId (newBatchOfLine bid item)]
          saved := some { item with batchId := bid } }
  else { ctr := ctr, writes := [], saved := some item }

/-- Cumulative outcome of `handleAddPurchase`'s loop. -/
structure AddPurchaseOutcome where
  ctr : Nat
  writes : List ProductWrite
  savedItems : List PurchaseLineItem
deriving Repr

def addPurchaseItems (ps : List Product) : List PurchaseLineItem → Nat → AddPurchaseOutcome
  | [], ctr => { ctr := ctr, writes := [], savedItems := [] }
  | item :: rest, ctr =>
    let o := addPurchaseLine ps ctr item
    let r := addPurchaseItems ps rest o.ctr
    { ctr := r.ctr
      writes := o.writes ++ r.writes
      savedItems := o.saved.toList ++ r.savedItems }

/-- `totalAmount = purchaseData.items.reduce((total, item) => total +
(item.purchasePrice * item.quantity), 0)` — computed over the submitted
items, not the resolved ones. -/
def purchaseTotalAmount (items : List PurchaseLineItem) : Rat :=
  items.foldl (fun total item => total + item.purchasePrice * (item.quantity : Rat)) 0

/-- Committed `products` collection after `handleAddPurchase`. -/
def addPurchaseProducts (ps : List Product) (items : List PurchaseLineItem) (ctr : Nat) :
    List Product :=
  applyProductWrites ps (addPurchaseItems ps items ctr).writes

/-- The `items` array stored on the saved purchase document. -/
def addPurchaseSavedItems (ps : List Product) (items : List PurchaseLineItem) (ctr : Nat) :
    List PurchaseLineItem :=
  (addPurchaseItems ps items ctr).savedItems

/-- The `productsToUpdate` map of `handleUpdatePurchase`: product id ↦
in-memory working copy, in insertion order. -/
abbrev ProductMap := List (String × Product)

def mapFind (m : ProductMap) (pid : String) : Option Product :=
  (m.find? fun e => decide (e.1 = pid)).map (·.2)

def mapSet (m : ProductMap) (pid : String) (p : Product) : ProductMap :=
  m.map fun e => if e.1 = pid then (e.1, p) else e

/-- `getMutableProduct`: the working copy if present, else a deep copy of
the snapshot product added to the map; `null` if the product is unknown. -/
def getMutableProduct (ps : List Product) (m : ProductMap) (pid : String) :
    Option (Product × ProductMap) :=
  match mapFind m pid with
  | some p => some (p, m)
  | none =>
    match findProduct ps pid with
    | some p => some (p, m ++ [(pid, p)])
    | none => none

/-- `findIndex` followed by in-place mutation of that single array slot:
rewrite the first batch satisfying the predicate, if any. -/
def modifyFirstBatch (sel : Batch → Bool) (f : Batch → Batch) : List Batch → List Batch
  | [] => []
  | b :: bs => if sel b then f b :: bs else b :: modifyFirstBatch sel f bs

/-- Revert stage of `handleUpdatePurchase`: subtract each original line's
quantity from its batch inside the working copies.  Lines without resolved
ids, or whose product no longer exists, are skipped. -/
def revertStage (ps : List Product) : List PurchaseLineItem → ProductMap → ProductMap
  | [], m => m
  | item :: rest, m =>
    if item.productId = "" ∨ item.batchId = "" then revertStage ps rest m
    else
      match getMutableProduct ps m item.productId with
      | none => revertStage ps rest m
      | some (p, m') =>
        let newBs := modifyFirstBatch
          (fun b => decide (b.id = item.batchId))
          (fun b => { b with stock := b.stock - item.quantity }) p.batches
        revertStage ps rest (mapSet m' item.productId { p with batches := newBs })

/-- Running state of the apply stage: the working copies, the id counter,
the staged new-product creates, and `updatedItemsWithIds`. -/
structure ApplyStageState where
  m : ProductMap
  ctr : Nat
  creates : List ProductWrite
  outItems : List PurchaseLineItem
deriving Repr

/-- Apply stage of `handleUpdatePurchase`: re-run the three-way resolution
of every updated line against the already-reverted working copies. -/
def applyStage (ps : List Product) : List PurchaseLineItem → ApplyStageState → ApplyStageState
  | [], st => st
  | item :: rest, st =>
    if item.isNewProduct then
      let bid := freshBatchId st.ctr
      let pid := freshProductId st.ctr
      applyStage ps rest
        { m := st.m
          ctr := st.ctr + 1
          creates := st.creates ++ [.create (newProductOfLine pid bid item)]
          outItems := st.outItems ++
            [{ item with productId := pid, batchId := bid, isNewProduct := false }] }
    else if item.productId ≠ "" then
      match getMutableProduct ps st.m item.productId with
      | none => applyStage ps rest st
      | some (p, m') =>
        match p.batches.find? (fun b => decide (b.batchNumber = item.batchNumber)) with
        | some hitBatch =>
          let newBs := modifyFirstBatch
            (fun b => decide (b.batchNumber = item.batchNumber))
            (fun b => { b with
              stock := b.stock + item.quantity
              mrp := item.mrp
              purchasePrice := item.purchasePrice
              expiryDate := item.expiryDate })
            p.batches
          let p' := { p with batches := newBs }
          applyStage ps rest
            { m := mapSet m' item.productId p'
              ctr := st.ctr
              creates := st.creates
              outItems := st.outItems ++ [{ item with batchId := hitBatch.id }] }
        | none =>
          let bid := freshBatchId st.ctr
          let p' := { p with batches := p.batches ++ [newBatchOfLine bid item] }
          applyStage ps rest
            { m := mapSet m' item.productId p'
              ctr := st.ctr + 1
              creates := st.creates
              outItems := st.outItems ++ [{ item with batchId := bid }] }
    else applyStage ps rest { st with outItems := st.outItems ++ [item] }

/-- Commit-stage clamp:
`product.batches.forEach(b => { if (b.stock < 0) b.stock = 0; })`. -/
def clampBatches (bs : List Batch) : List Batch :=
  bs.map fun b => if b.stock < 0 then { b with stock := 0 } else b

/-- Full `handleUpdatePurchase`: revert the original lines, apply the
updated lines, then commit the staged creates followed by the clamped
working copies; also returns the saved `items` array. -/
def updatePurchaseOutcome (ps : List Product) (origItems updItems : List PurchaseLineItem)
    (ctr : Nat) : List Product × List PurchaseLineItem :=
  let m0 := revertStage ps origItems []
  let st := applyStage ps updItems { m := m0, ctr := ctr, creates := [], outItems := [] }
  (applyProductWrites ps
    (st.creates ++ st.m.map fun e => ProductWrite.replace e.1 (clampBatches e.2.batches)),
   st.outItems)

/-- Committed `products` collection after `handleUpdatePurchase`. -/
def updatePurchaseProducts (ps : List Product) (origItems updItems : List PurchaseLineItem)
    (ctr : Nat) : List Product :=
  (updatePurchaseOutcome ps origItems updItems ctr).1

/-- Product writes of `handleDeletePurchase`: per resolved line, subtract
the quantity from its batch, clamping at zero; unresolved lines or missing
products are skipped. -/
def delPurchaseWrites (ps : List Product) (items : List PurchaseLineItem) :
    List BatchesWrite :=
  items.filterMap fun item =>
    if item.productId = "" ∨ item.batchId = "" then none
    else
      (findProduct ps item.productId).map fun p =>
        (p.id, p.batches.map fun b =>
          if b.id = item.batchId then
            { b with stock := if b.stock - item.quantity < 0 then 0
              else b.stock - item.quantity }
          else b)

/-- Committed `products` collection after `handleDeletePurchase`. -/
def deletePurchaseProducts (ps : List Product) (items : List PurchaseLineItem) :
    List Product :=
  applyWrites ps (delPurchaseWrites ps items)

/-! ## Billing cart (`PaymentEntry.tsx`) -/

/-- `updateCartItem(batchId, quantity)`: the quantity (and `total = mrp ×
quantity`) changes only when the batch is found and `0 < quantity ≤ stock`. -/
def updateCartItem (products : List Product) (cart : List CartItem)
    (batchId : String) (quantity : Int) : List CartItem :=
  cart.map fun item =>
    if item.batchId = batchId then
      match findProduct products item.productId with
      | some product =>
        match product.batches.find? (fun b => decide (b.id = batchId)) with
        | some batch =>
          if 0 < quantity ∧ quantity ≤ batch.stock then
            { item with quantity := quantity, total := item.mrp * (quantity : Rat) }
          else item
        | none => item
      | none => item
    else item

/-- `addToCart(product, batch)` (the expiry guard precedes this and leaves
the cart unchanged, so it is not part of the cart transition). -/
def addToCart (products : List Product) (cart : List CartItem)
    (product : Product) (batch : Batch) : List CartItem :=
  match cart.find? (fun item =>
      decide (item.productId = product.id ∧ item.batchId = batch.id)) with
  | some existingItem =>
    if existingItem.quantity < batch.stock then
      updateCartItem products cart existingItem.batchId (existingItem.quantity + 1)
    else cart
  | none =>
    let newItem : CartItem :=
      { productId := product.id
        productName := product.name
        composition := product.composition
        batchId := batch.id
        batchNumber := batch.batchNumber
        expiryDate := batch.expiryDate
        hsnCode := product.hsnCode
        quantity := 1
        mrp := batch.mrp
        gst := product.gst
        total := batch.mrp }
    cart ++ [newItem]

/-- `removeFromCart(batchId)`. -/
def removeFromCart (cart : List CartItem) (batchId : String) : List CartItem :=
  cart.filter fun item => decide (item.batchId ≠ batchId)

/-- The `useMemo` computing `(subTotal, totalGst)`:
`basePrice = total / (1 + gst/100)`, summed per item. -/
def cartTotals (cart : List CartItem) : Rat × Rat :=
  cart.foldl
    (fun acc item =>
      let basePrice := item.total / (1 + item.gst / 100)
      (acc.1 + basePrice, acc.2 + (item.total - basePrice)))
    (0, 0)

/-- The totals stored on a bill saved by `handleSaveBill`:
`grandTotal = subTotal + totalGst`. -/
structure BillTotals where
  subTotal : Rat
  totalGst : Rat
  grandTotal : Rat
deriving DecidableEq, Repr

def billTotalsOfCart (cart : List CartItem) : BillTotals :=
  { subTotal := (cartTotals cart).1
    totalGst := (cartTotals cart).2
    grandTotal := (cartTotals cart).1 + (cartTotals cart).2 }

/-- Per-item base price `total / (1 + gst/100)`. -/
def itemBasePrice (item : CartItem) : Rat :=
  item.total / (1 + item.gst / 100)

/-- Every cart line's `total` equals `mrp × quantity`. -/
def CartTotalsInv (cart : List CartItem) : Prop :=
  ∀ item ∈ cart, item.total = item.mrp * (item.quantity : Rat)

/-! ## Bill numbering (`handleGenerateBill`) -/

/-- Value of a decimal digit character. -/
def digitVal (c : Char) : Nat := c.toNat - 48

/-- Numeric value of a digit string, as `parseInt(·, 10)` computes it on an
all-digit string. -/
def digitsVal (cs : List Char) : Nat :=
  cs.foldl (fun a c => 10 * a + digitVal c) 0

/-- `billNumber.replace(/\D/g, '')`. -/
def stripNonDigits (s : String) : String :=
  String.mk (s.data.filter Char.isDigit)

/-- `parseInt(s, 10)` applied to a digit-stripped string: `NaN` (modelled
as `none`) exactly when the string is empty. -/
def parseBillNum (s : String) : Option Nat :=
  if s.data.isEmpty then none else some (digitsVal s.data)

/-- The numeric value the engine extracts from a stored bill number. -/
def billNumberValue (billNumber : String) : Option Nat :=
  parseBillNum (stripNonDigits billNumber)

/-- One step of the `maxBillNum` fold
(`if (!isNaN(num) && num > maxBillNum) maxBillNum = num`). -/
def maxStep (m : Nat) (s : String) : Nat :=
  match billNumberValue s with
  | some num => if m < num then num else m
  | none => m

/-- The fold computing `maxBillNum` over all bills read fresh from the
store. -/
def maxBillNum (billNumbers : List String) : Nat :=
  billNumbers.foldl maxStep 0

def digitChar : Nat → Char
  | 0 => '0'
  | 1 => '1'
  | 2 => '2'
  | 3 => '3'
  | 4 => '4'
  | 5 => '5'
  | 6 => '6'
  | 7 => '7'
  | 8 => '8'
  | 9 => '9'
  | _ => '*'

/-- Decimal digits of `n`, most significant first (`n.toString()`), by fuel
recursion; `n + 1` is always enough fuel since `n / 10 < n`. -/
def natCharsAux : Nat → Nat → List Char → List Char
  | 0, _, acc => acc
  | fuel + 1, n, acc =>
    if n < 10 then digitChar n :: acc
    else natCharsAux fuel (n / 10) (digitChar (n % 10) :: acc)

def natChars (n : Nat) : List Char := natCharsAux (n + 1) n []

/-- `.padStart(len, '0')`. -/
def padLeftZero (len : Nat) (cs : List Char) : List Char :=
  List.replicate (len - cs.length) '0' ++ cs

/-- `` `B${(maxBillNum + 1).toString().padStart(4, '0')}` ``. -/
def newBillNumber (billNumbers : List String) : String :=
  String.mk ('B' :: padLeftZero 4 (natChars (maxBillNum billNumbers + 1)))

/-! ## Global stock invariant -/

/-- Every batch of every product has non-negative stock. -/
def NonNegStocks (ps : List Product) : Prop :=
  ∀ p ∈ ps, ∀ b ∈ p.batches, 0 ≤ b.stock

/-- All stocks appearing in one staged write are non-negative. -/
def WriteNonNeg : ProductWrite → Prop
  | .create p => ∀ b ∈ p.batches, 0 ≤ b.stock
  | .replace _ bs => ∀ b ∈ bs, 0 ≤ b.stock
  | .union _ b => 0 ≤ b.stock

/-- Whether a staged write touches (creates or modifies) document `pid`. -/
def writesTo (pid : String) : ProductWrite → Bool
  | .create p => decide (p.id = pid)
  | .replace q _ => decide (q = pid)
  | .union q _ => decide (q = pid)

/-! ## Concrete fixtures for counterexamples and witnesses -/

def exBatch (bid num : String) (s : Int) : Batch :=
  ⟨bid, num, "2026-01", s, 10, 8⟩

def exProduct (pid : String) (bs : List Batch) : Product :=
  ⟨pid, "Para", "Acme", "H1", 12, "", bs⟩

def exCartItem (pid bid : String) (q : Int) : CartItem :=
  ⟨pid, "Para", "", bid, "N1", "2026-01", "H1", q, 10, 12, 10 * q⟩

def exLine (pid bid num : String) (q : Int) : PurchaseLineItem :=
  ⟨false, "Para", "Acme", "H1", 12, "", pid, bid, num, "2027-02", q, 11, 9⟩

/-! ## Theorems -/

@[simp] theorem applyWrites_nil (ps : List Product) : applyWrites ps [] = ps := rfl

theorem applyWrites_cons (ps : List Product) (w : BatchesWrite) (ws : List BatchesWrite) :
    applyWrites ps (w :: ws) = applyWrites (setBatches ps w.1 w.2) ws := rfl

theorem applyWrites_append (ps : List Product) (ws ws' : List BatchesWrite) :
    applyWrites ps (ws ++ ws') = applyWrites (applyWrites ps ws) ws' := by
  simp [applyWrites, List.foldl_append]

theorem lastWrite_append (ws ws' : List BatchesWrite) (q : String) :
    lastWrite (ws ++ ws') q =
      match lastWrite ws' q with
      | some r => some r
      | none => lastWrite ws q := by
  induction ws with
  | nil => cases h : lastWrite ws' q <;> simp [lastWrite, h]
  | cons w tail ih =>
    rw [List.cons_append, lastWrite, ih]
    cases h : lastWrite ws' q <;> cases h' : lastWrite tail q <;> simp [lastWrite, h']

theorem lastWrite_mem {ws : List BatchesWrite} {q : String} {bs : List Batch}
    (h : lastWrite ws q = some bs) : (q, bs) ∈ ws := by
  induction ws with
  | nil => simp [lastWrite] at h
  | cons w tail ih =>
    rw [lastWrite] at h
    cases h' : lastWrite tail q with
    | some r =>
      rw [h'] at h
      cases h
      exact List.mem_cons_of_mem _ (ih h')
    | none =>
      rw [h'] at h
      by_cases hq : w.1 = q
      · rw [if_pos hq] at h
        obtain rfl : w.2 = bs := by simpa using h
        have hw : (q, w.2) = w := by rw [← hq]
        exact List.mem_cons.2 (Or.inl hw)
      · rw [if_neg hq] at h
        cases h

theorem lastWrite_isSome_of_mem {ws : List BatchesWrite} {q : String} {bs : List Batch}
    (h : (q, bs) ∈ ws) : (lastWrite ws q).isSome := by
  induction ws with
  | nil => simp at h
  | cons w tail ih =>
    rw [lastWrite]
    rcases List.mem_cons.1 h with h' | h'
    · cases htail : lastWrite tail q
      · simp [← h']
      · simp
    · have := ih h'
      cases htail : lastWrite tail q
      · rw [htail] at this
        simp at this
      · simp

@[simp] theorem writeFn_id (pid : String) (bs : List Batch) (p : Product) :
    (writeFn pid bs p).id = p.id := by
  unfold writeFn
  by_cases h : p.id = pid <;> simp [h]

@[simp] theorem writesFn_id (ws : List BatchesWrite) (p : Product) :
    (writesFn ws p).id = p.id := by
  unfold writesFn
  cases lastWrite ws p.id <;> simp

/-- Committing a write batch acts elementwise: each document ends at the
value of the last write targeting it, or keeps its original value. -/
theorem applyWrites_eq_map (ps : List Product) (ws : List BatchesWrite) :
    applyWrites ps ws = ps.map (writesFn ws) := by
  induction ws generalizing ps with
  | nil =>
    have hfn : writesFn [] = fun p => p := by
      funext p
      simp [writesFn, lastWrite]
    rw [applyWrites_nil, hfn]
    simp
  | cons w tail ih =>
    rw [applyWrites_cons]
    have hset : setBatches ps w.1 w.2 = ps.map (writeFn w.1 w.2) := rfl
    rw [hset, ih, List.map_map]
    apply List.map_congr_left
    intro p _
    simp only [Function.comp_apply, writesFn, writeFn, lastWrite]
    by_cases hid : p.id = w.1
    · simp only [if_pos hid, hid]
      cases h : lastWrite tail w.1 <;> simp [h]
    · simp only [if_neg hid]
      have hne : ¬ w.1 = p.id := fun h => hid h.symm
      cases h : lastWrite tail p.id <;> simp [hne, h]

/-- `find?` through a `map` whose function preserves the searched field. -/
theorem findP_map (ps : List Product) (f : Product → Product) (pid : String)
    (hf : ∀ p, (f p).id = p.id) :
    (ps.map f).find? (fun p => decide (p.id = pid)) =
      (ps.find? fun p => decide (p.id = pid)).map f := by
  induction ps with
  | nil => simp
  | cons p tail ih =>
    by_cases h : p.id = pid
    · rw [List.map_cons, List.find?_cons_of_pos _ (by simp [hf, h]),
        List.find?_cons_of_pos _ (by simp [h]), Option.map_some']
    · rw [List.map_cons, List.find?_cons_of_neg _ (by simp [hf, h]),
        List.find?_cons_of_neg _ (by simp [h])]
      exact ih

/-- Looking a document up after a commit: the found document is the original
one with its batches replaced by the last write targeting it (if any). -/
theorem findProduct_applyWrites (ps : List Product) (ws : List BatchesWrite) (pid : String) :
    findProduct (applyWrites ps ws) pid = (findProduct ps pid).map (writesFn ws) := by
  rw [applyWrites_eq_map]
  exact findP_map ps (writesFn ws) pid (writesFn_id ws)

theorem findProduct_id {ps : List Product} {pid : String} {p : Product}
    (h : findProduct ps pid = some p) : p.id = pid := by
  have := List.find?_some h
  simpa using this

theorem findProduct_mem {ps : List Product} {pid : String} {p : Product}
    (h : findProduct ps pid = some p) : p ∈ ps :=
  List.mem_of_find?_eq_some h

/-- With unique document ids, `find?` by a member's id returns that member. -/
theorem findProduct_of_nodup {ps : List Product} (h : (ps.map Product.id).Nodup)
    {p : Product} (hp : p ∈ ps) : findProduct ps p.id = some p := by
  induction ps with
  | nil => simp at hp
  | cons x tail ih =>
    simp only [List.map_cons, List.nodup_cons] at h
    rcases List.mem_cons.1 hp with rfl | hmem
    · simp [findProduct, List.find?]
    · have hne : ¬ x.id = p.id := by
        intro he
        exact h.1 (he ▸ List.mem_map_of_mem Product.id hmem)
      show (x :: tail).find? (fun y => decide (y.id = p.id)) = some p
      rw [List.find?_cons_of_neg _ (by simp [hne])]
      exact ih h.2 hmem

/-! ## Generate-then-delete restores stock (machinery for C5) -/

theorem incBatches_decBatches (bs : List Batch) (bid : String) (q : Int) :
    incBatches (decBatches bs bid q) bid q = bs := by
  induction bs with
  | nil => rfl
  | cons b tail ih =>
    unfold incBatches decBatches at *
    simp only [List.map_cons]
    by_cases h : b.id = bid
    · cases b
      simp_all [Int.sub_add_cancel]
    · cases b
      simp_all

theorem lastWrite_singleton (w : BatchesWrite) (q : String) :
    lastWrite [w] q = if w.1 = q then some w.2 else none := rfl

theorem genBillWrites_append (ps : List Product) (xs ys : List CartItem) :
    genBillWrites ps (xs ++ ys) = genBillWrites ps xs ++ genBillWrites ps ys := by
  simp [genBillWrites, List.filterMap_append]

theorem delBillWrites_append (ps : List Product) (xs ys : List CartItem) :
    delBillWrites ps (xs ++ ys) = delBillWrites ps xs ++ delBillWrites ps ys := by
  simp [delBillWrites, List.filterMap_append]

theorem delBillWrites_cons (ps : List Product) (it : CartItem) (rest : List CartItem) :
    delBillWrites ps (it :: rest) =
      (match findProduct ps it.productId with
       | some p => (p.id, incBatches p.batches it.batchId it.quantity) :: delBillWrites ps rest
       | none => delBillWrites ps rest) := by
  simp only [delBillWrites, List.filterMap_cons]
  cases findProduct ps it.productId <;> rfl

/-- Rewriting one untargeted document before computing the delete write-set
does not change the write-set's effect on any other document. -/
theorem lastWrite_delBillWrites_setBatches (Q : List Product) (t : String)
    (bs : List Batch) (L : List CartItem) (q : String) (hq : q ≠ t) :
    lastWrite (delBillWrites (setBatches Q t bs) L) q =
      lastWrite (delBillWrites Q L) q := by
  induction L with
  | nil => rfl
  | cons it rest ih =>
    have hfind : findProduct (setBatches Q t bs) it.productId
        = (findProduct Q it.productId).map (writeFn t bs) :=
      findP_map Q (writeFn t bs) it.productId (writeFn_id t bs)
    rw [delBillWrites_cons, delBillWrites_cons]
    cases hp : findProduct Q it.productId with
    | none =>
      rw [hp, Option.map_none'] at hfind
      simp only [hfind, hp]
      exact ih
    | some p =>
      rw [hp, Option.map_some'] at hfind
      simp only [hfind, hp]
      rw [lastWrite, lastWrite, ih]
      cases hrest : lastWrite (delBillWrites Q rest) q with
      | some r => rfl
      | none =>
        simp only [writeFn_id]
        by_cases hpq : p.id = q
        · rw [if_pos hpq, if_pos hpq]
          have hpt : ¬ p.id = t := fun hh => hq (hpq.symm.trans hh)
          have hwf : writeFn t bs p = p := by
            unfold writeFn
            rw [if_neg hpt]
          rw [hwf]
        · rw [if_neg hpq, if_neg hpq]

/-- Key correspondence between the generate write-set and the delete
write-set computed against the post-generate state: per document, either
neither touches it, or the delete write-set's last write restores the
original batches. -/
theorem genDel_lastWrite (ps : List Product) (items : List CartItem) (q : String) :
    (lastWrite (genBillWrites ps items) q = none ∧
      lastWrite (delBillWrites (generateBillProducts ps items) items) q = none) ∨
    (∃ p, findProduct ps q = some p ∧
      (lastWrite (genBillWrites ps items) q).isSome ∧
      lastWrite (delBillWrites (generateBillProducts ps items) items) q = some p.batches) := by
  induction items using List.reverseRecOn with
  | nil => exact Or.inl ⟨rfl, rfl⟩
  | append_singleton xs it ih =>
    cases hp : findProduct ps it.productId with
    | none =>
      have hgen : genBillWrites ps (xs ++ [it]) = genBillWrites ps xs := by
        rw [genBillWrites_append]
        simp [genBillWrites, List.filterMap, hp]
      have hQ : generateBillProducts ps (xs ++ [it]) = generateBillProducts ps xs := by
        unfold generateBillProducts
        rw [hgen]
      have hdelit : delBillWrites (generateBillProducts ps xs) [it] = [] := by
        simp [delBillWrites, List.filterMap, generateBillProducts,
          findProduct_applyWrites, hp]
      rw [hgen, hQ, delBillWrites_append, hdelit, List.append_nil]
      exact ih
    | some p₀ =>
      have hid : p₀.id = it.productId := findProduct_id hp
      set w : BatchesWrite := (p₀.id, decBatches p₀.batches it.batchId it.quantity) with hw
      have hgen : genBillWrites ps (xs ++ [it]) = genBillWrites ps xs ++ [w] := by
        rw [genBillWrites_append]
        simp [genBillWrites, List.filterMap, hp, hw]
      have hQ : generateBillProducts ps (xs ++ [it])
          = setBatches (generateBillProducts ps xs) p₀.id w.2 := by
        unfold generateBillProducts
        rw [hgen, applyWrites_append, applyWrites_cons, applyWrites_nil]
      have hlastgen : lastWrite (genBillWrites ps (xs ++ [it])) p₀.id = some w.2 := by
        rw [hgen, lastWrite_append, lastWrite_singleton]
        simp [hw]
      have hfind' : findProduct (generateBillProducts ps (xs ++ [it])) it.productId
          = some { p₀ with batches := w.2 } := by
        unfold generateBillProducts
        rw [findProduct_applyWrites, hp, Option.map_some']
        unfold writesFn
        rw [hlastgen]
      have hdelit : delBillWrites (generateBillProducts ps (xs ++ [it])) [it]
          = [(p₀.id, p₀.batches)] := by
        rw [delBillWrites_cons, hfind']
        show [(({ p₀ with batches := w.2 } : Product).id,
          incBatches ({ p₀ with batches := w.2 } : Product).batches it.batchId it.quantity)] = _
        rw [show ({ p₀ with batches := w.2 } : Product).batches = w.2 from rfl,
          show ({ p₀ with batches := w.2 } : Product).id = p₀.id from rfl, hw,
          incBatches_decBatches]
      have hdel : delBillWrites (generateBillProducts ps (xs ++ [it])) (xs ++ [it])
          = delBillWrites (generateBillProducts ps (xs ++ [it])) xs ++ [(p₀.id, p₀.batches)] := by
        rw [delBillWrites_append, hdelit]
      by_cases hq : q = p₀.id
      · subst hq
        refine Or.inr ⟨p₀, ?_, ?_, ?_⟩
        · rw [hid]
          exact hp
        · rw [hlastgen]
          rfl
        · rw [hdel, lastWrite_append, lastWrite_singleton]
          simp
      · have hw1 : w.1 = p₀.id := by rw [hw]
        have hgenq : lastWrite (genBillWrites ps (xs ++ [it])) q
            = lastWrite (genBillWrites ps xs) q := by
          rw [hgen, lastWrite_append, lastWrite_singleton]
          have hne : ¬ w.1 = q := fun h => hq (h.symm.trans hw1)
          simp [hne]
        have hdelq : lastWrite (delBillWrites (generateBillProducts ps (xs ++ [it])) (xs ++ [it])) q
            = lastWrite (delBillWrites (generateBillProducts ps xs) xs) q := by
          rw [hdel, lastWrite_append, lastWrite_singleton]
          have h1 : ¬ (p₀.id, p₀.batches).1 = q := fun h => hq h.symm
          simp only [h1, if_neg, not_false_iff]
          rw [hQ]
          exact lastWrite_delBillWrites_setBatches _ p₀.id w.2 xs q hq
        rw [hgenq, hdelq]
        exact ih

/-- **C5.** Generating a bill and then immediately deleting it (with no
intervening operation, so the delete reads the post-generate snapshot)
restores the products collection, hence every batch's stock, exactly.
Product document ids are unique (they are store-assigned document ids). -/
theorem generate_then_delete_restores (ps : List Product) (items : List CartItem)
    (h : (ps.map Product.id).Nodup) :
    deleteBillProducts (generateBillProducts ps items) items = ps := by
  have key : ∀ p ∈ ps,
      (writesFn (delBillWrites (generateBillProducts ps items) items) ∘
        writesFn (genBillWrites ps items)) p = p := by
    intro p hmem
    have hfp : findProduct ps p.id = some p := findProduct_of_nodup h hmem
    rcases genDel_lastWrite ps items p.id with ⟨hg, hd⟩ | ⟨p', hfind, hsome, hdel⟩
    · simp only [Function.comp_apply, writesFn, hg, hd]
    · rw [hfp] at hfind
      injection hfind with he
      rw [← he] at hdel
      rcases Option.isSome_iff_exists.1 hsome with ⟨bs₁, hbs₁⟩
      have h1 : writesFn (genBillWrites ps items) p = { p with batches := bs₁ } := by
        unfold writesFn
        rw [hbs₁]
      have h2 : writesFn (delBillWrites (generateBillProducts ps items) items)
          { p with batches := bs₁ } = p := by
        unfold writesFn
        rw [show ({ p with batches := bs₁ } : Product).id = p.id from rfl, hdel]
      rw [Function.comp_apply, h1, h2]
  have hsplit : deleteBillProducts (generateBillProducts ps items) items
      = ps.map (writesFn (delBillWrites (generateBillProducts ps items) items) ∘
          writesFn (genBillWrites ps items)) := by
    unfold deleteBillProducts
    rw [applyWrites_eq_map, ← List.map_map]
    congr 1
    unfold generateBillProducts
    rw [applyWrites_eq_map]
  rw [hsplit, List.map_congr_left key, List.map_id']

/-! ## C10: a purchase line referencing a missing product -/

theorem purchaseTotal_foldl (items : List PurchaseLineItem) (a : Rat) :
    items.foldl (fun total item => total + item.purchasePrice * (item.quantity : Rat)) a
      = a + purchaseTotalAmount items := by
  induction items generalizing a with
  | nil => simp [purchaseTotalAmount]
  | cons it rest ih =>
    simp only [purchaseTotalAmount, List.foldl_cons] at *
    rw [ih (a + it.purchasePrice * (it.quantity : Rat)),
      ih (0 + it.purchasePrice * (it.quantity : Rat))]
    ring

/-- **C10.** A line with `isNewProduct = false` and a non-empty `productId`
matching no product in the snapshot is `continue`d past: `handleAddPurchase`
still commits, the line contributes no product write and is omitted from the
saved `items` array (the whole loop outcome is as if the line were absent),
yet `totalAmount` is computed over the submitted items and therefore still
includes the line's `purchasePrice × quantity`. -/
theorem c10_missing_product_line (ps : List Product)
    (xs ys : List PurchaseLineItem) (l : PurchaseLineItem) (ctr : Nat)
    (hnew : l.isNewProduct = false) (hid : l.productId ≠ "")
    (hmiss : findProduct ps l.productId = none) :
    addPurchaseItems ps (xs ++ l :: ys) ctr = addPurchaseItems ps (xs ++ ys) ctr ∧
    purchaseTotalAmount (xs ++ l :: ys)
      = purchaseTotalAmount (xs ++ ys) + l.purchasePrice * (l.quantity : Rat) := by
  constructor
  · induction xs generalizing ctr with
    | nil =>
      show addPurchaseItems ps (l :: ys) ctr = addPurchaseItems ps ys ctr
      rw [addPurchaseItems]
      simp [addPurchaseLine, hnew, hid, hmiss]
    | cons x rest ih =>
      rw [List.cons_append, List.cons_append, addPurchaseItems, addPurchaseItems, ih]
  · simp only [purchaseTotalAmount, List.foldl_append, List.foldl_cons]
    rw [purchaseTotal_foldl, purchaseTotal_foldl, purchaseTotal_foldl]
    ring

/-- Witness for C10 at a concrete input. -/
theorem c10_missing_product_line_witness :
    addPurchaseItems [exProduct "p" [exBatch "y" "NY" 4]]
        ([exLine "p" "y" "NY" 3] ++ exLine "ghost" "" "NG" 2 :: []) 0
      = addPurchaseItems [exProduct "p" [exBatch "y" "NY" 4]]
          ([exLine "p" "y" "NY" 3] ++ []) 0 ∧
    purchaseTotalAmount ([exLine "p" "y" "NY" 3] ++ exLine "ghost" "" "NG" 2 :: [])
      = purchaseTotalAmount ([exLine "p" "y" "NY" 3] ++ []) +
        (exLine "ghost" "" "NG" 2).purchasePrice *
          ((exLine "ghost" "" "NG" 2).quantity : Rat) :=
  c10_missing_product_line [exProduct "p" [exBatch "y" "NY" 4]] [exLine "p" "y" "NY" 3] []
    (exLine "ghost" "" "NG" 2) 0 (by decide)
    (by decide) (by decide)

/-! ## C9: bill arithmetic -/

theorem cartTotals_foldl (cart : List CartItem) (a b : Rat) :
    cart.foldl (fun acc item =>
        let basePrice := item.total / (1 + item.gst / 100)
        (acc.1 + basePrice, acc.2 + (item.total - basePrice))) (a, b)
      = (a + (cart.map itemBasePrice).sum,
         b + (cart.map fun item => item.total - itemBasePrice item).sum) := by
  induction cart generalizing a b with
  | nil => simp
  | cons it rest ih =>
    simp only [List.foldl_cons, List.map_cons, List.sum_cons]
    rw [ih]
    simp only [Prod.mk.injEq, itemBasePrice]
    constructor <;> ring

theorem cartInv_updateCartItem (products : List Product) (cart : List CartItem)
    (bid : String) (q : Int) (h : CartTotalsInv cart) :
    CartTotalsInv (updateCartItem products cart bid q) := by
  intro item hmem
  rw [updateCartItem, List.mem_map] at hmem
  obtain ⟨it, hit, rfl⟩ := hmem
  by_cases h1 : it.batchId = bid
  · rw [if_pos h1]
    split
    · split
      · split
        · rfl
        · exact h it hit
      · exact h it hit
    · exact h it hit
  · rw [if_neg h1]
    exact h it hit

theorem cartInv_addToCart (products : List Product) (cart : List CartItem)
    (product : Product) (batch : Batch) (h : CartTotalsInv cart) :
    CartTotalsInv (addToCart products cart product batch) := by
  cases hf : cart.find? (fun item =>
      decide (item.productId = product.id ∧ item.batchId = batch.id)) with
  | some existingItem =>
    have heq : addToCart products cart product batch
        = if existingItem.quantity < batch.stock then
            updateCartItem products cart existingItem.batchId (existingItem.quantity + 1)
          else cart := by
      rw [addToCart, hf]
    rw [heq]
    by_cases h2 : existingItem.quantity < batch.stock
    · rw [if_pos h2]
      exact cartInv_updateCartItem products cart existingItem.batchId
        (existingItem.quantity + 1) h
    · rw [if_neg h2]
      exact h
  | none =>
    have heq : addToCart products cart product batch
        = cart ++ [{ productId := product.id
                     productName := product.name
                     composition := product.composition
                     batchId := batch.id
                     batchNumber := batch.batchNumber
                     expiryDate := batch.expiryDate
                     hsnCode := product.hsnCode
                     quantity := 1
                     mrp := batch.mrp
                     gst := product.gst
                     total := batch.mrp }] := by
      rw [addToCart, hf]
    rw [heq]
    intro item hmem
    simp only [List.mem_append, List.mem_singleton] at hmem
    rcases hmem with hmem | rfl
    · exact h item hmem
    · simp

theorem cartInv_removeFromCart (cart : List CartItem) (bid : String)
    (h : CartTotalsInv cart) : CartTotalsInv (removeFromCart cart bid) := by
  intro item hmem
  exact h item (List.mem_of_mem_filter hmem)

/-- **C9.** Every cart operation maintains `total = mrp × quantity` for all
cart lines, and the totals saved on a bill (`handleSaveBill`) satisfy
`subTotal = Σ totalᵢ/(1+gstᵢ/100)`, `totalGst = Σ (totalᵢ − baseᵢ)` and
`grandTotal = subTotal + totalGst` exactly (JS floats are modelled as exact
rationals, so the identities hold without rounding tolerance). -/
theorem c9_bill_arithmetic (products : List Product) :
    CartTotalsInv [] ∧
    (∀ cart product batch, CartTotalsInv cart →
      CartTotalsInv (addToCart products cart product batch)) ∧
    (∀ cart bid q, CartTotalsInv cart →
      CartTotalsInv (updateCartItem products cart bid q)) ∧
    (∀ cart bid, CartTotalsInv cart → CartTotalsInv (removeFromCart cart bid)) ∧
    (∀ cart : List CartItem,
      (billTotalsOfCart cart).subTotal = (cart.map itemBasePrice).sum ∧
      (billTotalsOfCart cart).totalGst
        = (cart.map fun item => item.total - itemBasePrice item).sum ∧
      (billTotalsOfCart cart).grandTotal
        = (billTotalsOfCart cart).subTotal + (billTotalsOfCart cart).totalGst) := by
  refine ⟨fun item hmem => absurd hmem (List.not_mem_nil item),
    fun cart product batch h => cartInv_addToCart products cart product batch h,
    fun cart bid q h => cartInv_updateCartItem products cart bid q h,
    fun cart bid h => cartInv_removeFromCart cart bid h,
    fun cart => ?_⟩
  have hct : cartTotals cart
      = ((cart.map itemBasePrice).sum,
         (cart.map fun item => item.total - itemBasePrice item).sum) := by
    rw [cartTotals, cartTotals_foldl]
    simp
  refine ⟨?_, ?_, rfl⟩
  · rw [billTotalsOfCart, hct]
  · rw [billTotalsOfCart, hct]

/-- Witness for C9 at a concrete cart. -/
theorem c9_bill_arithmetic_witness :
    CartTotalsInv (addToCart [exProduct "p" [exBatch "y" "NY" 4]] []
      (exProduct "p" [exBatch "y" "NY" 4]) (exBatch "y" "NY" 4)) ∧
    (billTotalsOfCart [exCartItem "p" "y" 3]).grandTotal
      = (billTotalsOfCart [exCartItem "p" "y" 3]).subTotal
        + (billTotalsOfCart [exCartItem "p" "y" 3]).totalGst :=
  ⟨(c9_bill_arithmetic [exProduct "p" [exBatch "y" "NY" 4]]).2.1 []
      (exProduct "p" [exBatch "y" "NY" 4]) (exBatch "y" "NY" 4)
      (fun item hmem => absurd hmem (List.not_mem_nil item)),
   ((c9_bill_arithmetic []).2.2.2.2 [exCartItem "p" "y" 3]).2.2⟩

/-! ## C8: bill numbering -/

theorem maxStep_none {x : String} {a : Nat} (hv : billNumberValue x = none) :
    maxStep a x = a := by
  rw [maxStep, hv]

theorem maxStep_some {x : String} {a num : Nat} (hv : billNumberValue x = some num) :
    maxStep a x = if a < num then num else a := by
  rw [maxStep, hv]

theorem maxBillNum_le_foldl (l : List String) (a : Nat) :
    a ≤ l.foldl maxStep a := by
  induction l generalizing a with
  | nil => exact le_refl a
  | cons x rest ih =>
    simp only [List.foldl_cons]
    cases hv : billNumberValue x with
    | none =>
      rw [maxStep_none hv]
      exact ih a
    | some num =>
      rw [maxStep_some hv]
      by_cases hlt : a < num
      · rw [if_pos hlt]
        exact le_trans (Nat.le_of_lt hlt) (ih num)
      · rw [if_neg hlt]
        exact ih a

theorem billNumberValue_le_foldl (l : List String) (s : String) (k : Nat)
    (hv : billNumberValue s = some k) :
    ∀ a : Nat, s ∈ l → k ≤ l.foldl maxStep a := by
  induction l with
  | nil =>
    intro a hs
    cases hs
  | cons x rest ih =>
    intro a hs
    simp only [List.foldl_cons]
    rcases List.mem_cons.1 hs with rfl | hmem
    · rw [maxStep_some hv]
      by_cases hlt : a < k
      · rw [if_pos hlt]
        exact maxBillNum_le_foldl rest k
      · rw [if_neg hlt]
        exact le_trans (Nat.le_of_not_lt hlt) (maxBillNum_le_foldl rest a)
    · exact ih _ hmem

theorem foldl_billNum_attained (l : List String) : ∀ a : Nat,
    (l.foldl maxStep a = a) ∨
    ∃ s ∈ l, billNumberValue s = some (l.foldl maxStep a) := by
  induction l with
  | nil =>
    intro a
    exact Or.inl rfl
  | cons x rest ih =>
    intro a
    simp only [List.foldl_cons]
    cases hv : billNumberValue x with
    | none =>
      rw [maxStep_none hv]
      rcases ih a with h | ⟨s, hs, hval⟩
      · exact Or.inl h
      · exact Or.inr ⟨s, List.mem_cons_of_mem x hs, hval⟩
    | some num =>
      rw [maxStep_some hv]
      by_cases hlt : a < num
      · rw [if_pos hlt]
        rcases ih num with h | ⟨s, hs, hval⟩
        · exact Or.inr ⟨x, List.mem_cons_self x rest, by rw [hv, h]⟩
        · exact Or.inr ⟨s, List.mem_cons_of_mem x hs, hval⟩
      · rw [if_neg hlt]
        rcases ih a with h | ⟨s, hs, hval⟩
        · exact Or.inl h
        · exact Or.inr ⟨s, List.mem_cons_of_mem x hs, hval⟩

theorem digitChar_isDigit {d : Nat} (h : d < 10) : (digitChar d).isDigit = true := by
  interval_cases d <;> decide

theorem digitVal_digitChar {d : Nat} (h : d < 10) : digitVal (digitChar d) = d := by
  interval_cases d <;> decide

theorem natCharsAux_fuel (f₁ : Nat) : ∀ (f₂ n : Nat) (acc : List Char),
    n < f₁ → n < f₂ → natCharsAux f₁ n acc = natCharsAux f₂ n acc := by
  induction f₁ with
  | zero =>
    intro f₂ n acc h₁ _
    omega
  | succ g ih =>
    intro f₂ n acc h₁ h₂
    cases f₂ with
    | zero => omega
    | succ g₂ =>
      rw [natCharsAux, natCharsAux]
      by_cases hn : n < 10
      · rw [if_pos hn, if_pos hn]
      · rw [if_neg hn, if_neg hn]
        have hdiv : n / 10 < n := Nat.div_lt_self (by omega) (by omega)
        exact ih g₂ (n / 10) _ (by omega) (by omega)

theorem natCharsAux_acc (f : Nat) : ∀ (n : Nat) (acc : List Char), n < f →
    natCharsAux f n acc = natCharsAux f n [] ++ acc := by
  induction f with
  | zero =>
    intro n acc h
    omega
  | succ g ih =>
    intro n acc h
    rw [natCharsAux, natCharsAux]
    by_cases hn : n < 10
    · rw [if_pos hn, if_pos hn]
      rfl
    · rw [if_neg hn, if_neg hn]
      have hdiv : n / 10 < n := Nat.div_lt_self (by omega) (by omega)
      rw [ih (n / 10) _ (by omega), ih (n / 10) [digitChar (n % 10)] (by omega)]
      simp

theorem digitsVal_append_singleton (cs : List Char) (c : Char) :
    digitsVal (cs ++ [c]) = 10 * digitsVal cs + digitVal c := by
  simp [digitsVal, List.foldl_append]

theorem digitsVal_natChars (n : Nat) : digitsVal (natChars n) = n := by
  induction n using Nat.strong_induction_on with
  | _ n ih =>
    rw [natChars, natCharsAux]
    by_cases hn : n < 10
    · rw [if_pos hn]
      show 10 * 0 + digitVal (digitChar n) = n
      rw [digitVal_digitChar hn]
      omega
    · rw [if_neg hn]
      have hdiv : n / 10 < n := Nat.div_lt_self (by omega) (by omega)
      rw [natCharsAux_acc n (n / 10) _ (by omega),
        natCharsAux_fuel n (n / 10 + 1) (n / 10) [] (by omega) (by omega),
        ← natChars, digitsVal_append_singleton, ih (n / 10) hdiv,
        digitVal_digitChar (Nat.mod_lt n (by omega))]
      omega

theorem natCharsAux_digits (f : Nat) : ∀ (n : Nat) (acc : List Char),
    (∀ c ∈ acc, c.isDigit = true) → ∀ c ∈ natCharsAux f n acc, c.isDigit = true := by
  induction f with
  | zero =>
    intro n acc hacc c hc
    exact hacc c hc
  | succ g ih =>
    intro n acc hacc c hc
    rw [natCharsAux] at hc
    by_cases hn : n < 10
    · rw [if_pos hn] at hc
      rcases List.mem_cons.1 hc with rfl | hm
      · exact digitChar_isDigit hn
      · exact hacc c hm
    · rw [if_neg hn] at hc
      refine ih (n / 10) _ ?_ c hc
      intro c' hc'
      rcases List.mem_cons.1 hc' with rfl | hm
      · exact digitChar_isDigit (Nat.mod_lt n (by omega))
      · exact hacc c' hm

theorem natCharsAux_length (f : Nat) : ∀ (n : Nat) (acc : List Char), n < f →
    acc.length < (natCharsAux f n acc).length := by
  induction f with
  | zero =>
    intro n acc h
    omega
  | succ g ih =>
    intro n acc h
    rw [natCharsAux]
    by_cases hn : n < 10
    · rw [if_pos hn]
      simp
    · rw [if_neg hn]
      have hdiv : n / 10 < n := Nat.div_lt_self (by omega) (by omega)
      have h2 := ih (n / 10) (digitChar (n % 10) :: acc) (by omega)
      simp only [List.length_cons] at h2
      omega

theorem digitsVal_replicate_zero (k : Nat) (cs : List Char) :
    digitsVal (List.replicate k '0' ++ cs) = digitsVal cs := by
  induction k with
  | zero => rfl
  | succ m ih =>
    rw [List.replicate_succ, List.cons_append]
    exact ih

theorem stripNonDigits_newBillNumber (bills : List String) :
    (stripNonDigits (newBillNumber bills)).data
      = List.replicate (4 - (natChars (maxBillNum bills + 1)).length) '0'
        ++ natChars (maxBillNum bills + 1) := by
  show ('B' :: padLeftZero 4 (natChars (maxBillNum bills + 1))).filter Char.isDigit = _
  rw [List.filter_cons]
  have hB : ('B'.isDigit = true) = False := by simp
  simp only [hB, if_false]
  apply List.filter_eq_self.2
  intro c hc
  rw [padLeftZero, List.mem_append] at hc
  rcases hc with hc | hc
  · rw [List.eq_of_mem_replicate hc]
    decide
  · exact natCharsAux_digits _ _ [] (by intro c' hc'; cases hc') c hc

/-- **C8.** The number assigned to a new bill is `'B'` followed by the
4-zero-padded decimal representation of `maxBillNum + 1`, where `maxBillNum`
is the largest value parsed (non-digits stripped) from any existing bill
number (`0` when none parses); the new number parses back to exactly
`maxBillNum + 1`, which strictly exceeds every existing parsed number
regardless of gaps left by deletions. -/
theorem c8_bill_number_allocation (billNumbers : List String) :
    (newBillNumber billNumbers).data
      = 'B' :: padLeftZero 4 (natChars (maxBillNum billNumbers + 1)) ∧
    billNumberValue (newBillNumber billNumbers) = some (maxBillNum billNumbers + 1) ∧
    (∀ s ∈ billNumbers, ∀ k, billNumberValue s = some k → k ≤ maxBillNum billNumbers) ∧
    (maxBillNum billNumbers = 0 ∨
      ∃ s ∈ billNumbers, billNumberValue s = some (maxBillNum billNumbers)) := by
  refine ⟨rfl, ?_, ?_, ?_⟩
  · rw [billNumberValue, parseBillNum]
    have hlen : 0 < (natChars (maxBillNum billNumbers + 1)).length :=
      natCharsAux_length _ _ [] (by omega)
    have hne : ((stripNonDigits (newBillNumber billNumbers)).data.isEmpty = true) = False := by
      rw [stripNonDigits_newBillNumber]
      simp only [List.isEmpty_iff, eq_iff_iff, iff_false]
      intro hemp
      have := congrArg List.length hemp
      simp only [List.length_append, List.length_replicate, List.length_nil] at this
      omega
    simp only [hne, if_false]
    rw [stripNonDigits_newBillNumber, digitsVal_replicate_zero, digitsVal_natChars]
  · intro s hs k hv
    rw [maxBillNum]
    exact billNumberValue_le_foldl billNumbers s k hv 0 hs
  · rw [maxBillNum]
    rcases foldl_billNum_attained billNumbers 0 with h | h
    · exact Or.inl h
    · exact Or.inr h

/-- Witness for C8 at a concrete bill list (max suffix 7, gaps included):
the new number parses to 8 and strictly exceeds the parsed value 7 of
`"B0007"`. -/
theorem c8_bill_number_allocation_witness :
    billNumberValue (newBillNumber ["B0007", "junk", "B0003"]) = some 8 ∧
    7 ≤ maxBillNum ["B0007", "junk", "B0003"] := by
  have h := c8_bill_number_allocation ["B0007", "junk", "B0003"]
  exact ⟨h.2.1.trans (by decide), h.2.2.1 "B0007" (by decide) 7 (by decide)⟩

/-! ## C2/C3: bill-edit netting and the negative-stock guard -/

theorem updateBillWrites_cons_zero (ps : List Product) (bid pid : String)
    (rest : List ChangeEntry) :
    updateBillWrites ps ((bid, pid, 0) :: rest) = updateBillWrites ps rest := by
  rw [updateBillWrites, if_pos rfl]

theorem updateBillWrites_cons_missing (ps : List Product) (bid pid : String) (c : Int)
    (rest : List ChangeEntry) (hc : c ≠ 0) (hp : findProduct ps pid = none) :
    updateBillWrites ps ((bid, pid, c) :: rest) = none := by
  rw [updateBillWrites, if_neg hc, hp]

theorem updateBillWrites_cons_found (ps : List Product) (bid pid : String) (c : Int)
    (rest : List ChangeEntry) (p : Product) (hc : c ≠ 0)
    (hp : findProduct ps pid = some p) :
    updateBillWrites ps ((bid, pid, c) :: rest)
      = if (applyNet p.batches bid c).any fun b => decide (b.stock < 0) then none
        else ((pid, applyNet p.batches bid c) :: ·) <$> updateBillWrites ps rest := by
  rw [updateBillWrites, if_neg hc, hp]

/-- If any non-zero net delta would leave a batch of its (found) product
negative, the whole edit aborts before any write. -/
theorem updateBillWrites_none_of_negative (ps : List Product) :
    ∀ L : List ChangeEntry,
      (∃ e ∈ L, e.2.2 ≠ 0 ∧ ∃ p, findProduct ps e.2.1 = some p ∧
        ((applyNet p.batches e.1 e.2.2).any fun b => decide (b.stock < 0)) = true) →
      updateBillWrites ps L = none := by
  intro L
  induction L with
  | nil =>
    rintro ⟨e, he, -⟩
    cases he
  | cons entry rest ih =>
    obtain ⟨bid, pid, c⟩ := entry
    rintro ⟨e, he, hnz, p, hfp, hneg⟩
    rcases List.mem_cons.1 he with rfl | hmem
    · rw [updateBillWrites_cons_found ps bid pid c rest p hnz hfp, if_pos hneg]
    · by_cases hc : c = 0
      · subst hc
        rw [updateBillWrites_cons_zero]
        exact ih ⟨e, hmem, hnz, p, hfp, hneg⟩
      · cases hp : findProduct ps pid with
        | none => exact updateBillWrites_cons_missing ps bid pid c rest hc hp
        | some p₀ =>
          rw [updateBillWrites_cons_found ps bid pid c rest p₀ hc hp]
          by_cases hneg₀ : ((applyNet p₀.batches bid c).any fun b => decide (b.stock < 0)) = true
          · rw [if_pos hneg₀]
          · rw [if_neg hneg₀, ih ⟨e, hmem, hnz, p, hfp, hneg⟩]
            rfl

/-- On success every emitted write has only non-negative stocks, and every
non-zero entry contributed a write for its product. -/
theorem updateBillWrites_sound (ps : List Product) :
    ∀ (L : List ChangeEntry) (ws : List BatchesWrite),
      updateBillWrites ps L = some ws →
      (∀ w ∈ ws, ∀ b ∈ w.2, 0 ≤ b.stock) ∧
      (∀ e ∈ L, e.2.2 ≠ 0 → ∃ bs, (e.2.1, bs) ∈ ws) := by
  intro L
  induction L with
  | nil =>
    intro ws hws
    rw [updateBillWrites] at hws
    injection hws with h
    subst h
    exact ⟨fun w hw => absurd hw (List.not_mem_nil w),
      fun e he => absurd he (List.not_mem_nil e)⟩
  | cons entry rest ih =>
    obtain ⟨bid, pid, c⟩ := entry
    intro ws hws
    by_cases hc : c = 0
    · subst hc
      rw [updateBillWrites_cons_zero] at hws
      obtain ⟨h1, h2⟩ := ih ws hws
      refine ⟨h1, ?_⟩
      intro e he hnz
      rcases List.mem_cons.1 he with rfl | hmem
      · exact absurd rfl hnz
      · exact h2 e hmem hnz
    · cases hp : findProduct ps pid with
      | none =>
        rw [updateBillWrites_cons_missing ps bid pid c rest hc hp] at hws
        cases hws
      | some p =>
        rw [updateBillWrites_cons_found ps bid pid c rest p hc hp] at hws
        by_cases hneg : ((applyNet p.batches bid c).any fun b => decide (b.stock < 0)) = true
        · rw [if_pos hneg] at hws
          cases hws
        · rw [if_neg hneg] at hws
          cases hrest : updateBillWrites ps rest with
          | none =>
            rw [hrest] at hws
            cases hws
          | some ws' =>
            rw [hrest] at hws
            injection hws with h
            subst h
            obtain ⟨h1, h2⟩ := ih ws' hrest
            have hfalse : ((applyNet p.batches bid c).any fun b => decide (b.stock < 0)) = false :=
              Bool.eq_false_iff.2 hneg
            have hall := List.any_eq_false.1 hfalse
            constructor
            · intro w hw b hb
              rcases List.mem_cons.1 hw with rfl | hw'
              · have := hall b hb
                simp only [decide_eq_true_eq] at this
                exact Int.not_lt.1 this
              · exact h1 w hw' b hb
            · intro e he hnz
              rcases List.mem_cons.1 he with rfl | hmem
              · exact ⟨applyNet p.batches bid c, List.mem_cons_self _ _⟩
              · obtain ⟨bs, hbs⟩ := h2 e hmem hnz
                exact ⟨bs, List.mem_cons_of_mem _ hbs⟩

/-- **C3.** If applying any non-zero net delta would leave a batch of a
touched product with negative stock, the bill edit returns a failure before
any write is applied (the result is `none`, so the entire state is
unchanged); and when the edit commits, every touched product in the
committed state has only non-negative-stock batches. -/
theorem c3_negative_stock_guard (ps : List Product) (orig upd : List CartItem) :
    ((∃ e ∈ stockChangeList orig upd, e.2.2 ≠ 0 ∧
        ∃ p, findProduct ps e.2.1 = some p ∧
          ((applyNet p.batches e.1 e.2.2).any fun b => decide (b.stock < 0)) = true) →
      updateBillProducts ps orig upd = none) ∧
    (∀ ps', updateBillProducts ps orig upd = some ps' →
      ∀ e ∈ stockChangeList orig upd, e.2.2 ≠ 0 →
        ∀ p', findProduct ps' e.2.1 = some p' → ∀ b ∈ p'.batches, 0 ≤ b.stock) := by
  constructor
  · intro hbad
    rw [updateBillProducts, updateBillWrites_none_of_negative ps _ hbad]
    rfl
  · intro ps' hps' e he hnz p' hp'
    rw [updateBillProducts] at hps'
    cases hws : updateBillWrites ps (stockChangeList orig upd) with
    | none =>
      rw [hws] at hps'
      cases hps'
    | some ws =>
      rw [hws] at hps'
      injection hps' with h
      subst h
      obtain ⟨h1, h2⟩ := updateBillWrites_sound ps _ ws hws
      obtain ⟨bs0, hbs0⟩ := h2 e he hnz
      have hsome := lastWrite_isSome_of_mem hbs0
      rcases Option.isSome_iff_exists.1 hsome with ⟨bs1, hbs1⟩
      have hmem1 := lastWrite_mem hbs1
      rw [findProduct_applyWrites] at hp'
      cases hfp : findProduct ps e.2.1 with
      | none =>
        rw [hfp] at hp'
        cases hp'
      | some p0 =>
        rw [hfp] at hp'
        injection hp' with h'
        have hid : p0.id = e.2.1 := findProduct_id hfp
        rw [← h']
        unfold writesFn
        rw [hid, hbs1]
        intro b hb
        exact h1 (e.2.1, bs1) hmem1 b hb

/-- Witness for C3: a concrete edit that would drive batch `x` to −2 is
rejected, and a concrete committed edit leaves only non-negative stocks. -/
theorem c3_negative_stock_guard_witness :
    updateBillProducts [exProduct "p" [exBatch "x" "N1" 5]]
      [exCartItem "p" "x" 1] [exCartItem "p" "x" 8] = none ∧
    ∀ b ∈ (exProduct "p" [exBatch "x" "N1" 7]).batches, 0 ≤ b.stock :=
  ⟨(c3_negative_stock_guard [exProduct "p" [exBatch "x" "N1" 5]]
      [exCartItem "p" "x" 1] [exCartItem "p" "x" 8]).1 (by decide),
   (c3_negative_stock_guard [exProduct "p" [exBatch "x" "N1" 5]]
      [exCartItem "p" "x" 5] [exCartItem "p" "x" 3]).2
      [exProduct "p" [exBatch "x" "N1" 7]] (by decide)
      ("x", "p", (2 : Int)) (by decide) (by decide)
      (exProduct "p" [exBatch "x" "N1" 7]) (by decide)⟩

/-- **C2 (code-bug evaluation).** On the spec's single-batch example the
engine nets correctly: after the original bill sold 5 units of batch `x`
(snapshot stock 5 = 10 − 5), editing the bill to 3 units commits stock 7.
But when an edit nets two batches of the *same* product, each per-entry
write is computed from the unchanged snapshot and the later `update` to the
same product document overwrites the earlier one, losing that delta: with
`b1`, `b2` both at snapshot stock 5, editing both sold quantities from 5 to
3 commits `b1 = 5` — its +2 delta is lost — and `b2 = 7`, instead of the
specified `b1 = 7, b2 = 7`. -/
theorem c2_update_bill_netting_bug :
    updateBillProducts [exProduct "p" [exBatch "x" "N1" 5]]
        [exCartItem "p" "x" 5] [exCartItem "p" "x" 3]
      = some [exProduct "p" [exBatch "x" "N1" 7]] ∧
    updateBillProducts [exProduct "p" [exBatch "b1" "N1" 5, exBatch "b2" "N2" 5]]
        [exCartItem "p" "b1" 5, exCartItem "p" "b2" 5]
        [exCartItem "p" "b1" 3, exCartItem "p" "b2" 3]
      = some [exProduct "p" [exBatch "b1" "N1" 5, exBatch "b2" "N2" 7]] ∧
    updateBillProducts [exProduct "p" [exBatch "b1" "N1" 5, exBatch "b2" "N2" 5]]
        [exCartItem "p" "b1" 5, exCartItem "p" "b2" 5]
        [exCartItem "p" "b1" 3, exCartItem "p" "b2" 3]
      ≠ some [exProduct "p" [exBatch "b1" "N1" 7, exBatch "b2" "N2" 7]] := by
  refine ⟨?_, ?_, ?_⟩ <;> decide

/-- Witness for C5: generating a two-item bill over two products and
deleting it restores the snapshot. -/
theorem generate_then_delete_restores_witness :
    deleteBillProducts
        (generateBillProducts
          [exProduct "p" [exBatch "x" "N1" 5], exProduct "q" [exBatch "y" "N2" 9]]
          [exCartItem "p" "x" 2, exCartItem "q" "y" 4])
        [exCartItem "p" "x" 2, exCartItem "q" "y" 4]
      = [exProduct "p" [exBatch "x" "N1" 5], exProduct "q" [exBatch "y" "N2" 9]] :=
  generate_then_delete_restores
    [exProduct "p" [exBatch "x" "N1" 5], exProduct "q" [exBatch "y" "N2" 9]]
    [exCartItem "p" "x" 2, exCartItem "q" "y" 4] (by decide)

/-! ## C1: stock non-negativity -/

theorem clampBatches_nonneg (bs : List Batch) : ∀ b ∈ clampBatches bs, 0 ≤ b.stock := by
  intro b hb
  rw [clampBatches, List.mem_map] at hb
  obtain ⟨b0, hb0, rfl⟩ := hb
  by_cases h : b0.stock < 0
  · rw [if_pos h]
  · rw [if_neg h]
    exact Int.not_lt.1 h

theorem nonNeg_applyWrites {ps : List Product} {ws : List BatchesWrite}
    (h : NonNegStocks ps) (hw : ∀ w ∈ ws, ∀ b ∈ w.2, 0 ≤ b.stock) :
    NonNegStocks (applyWrites ps ws) := by
  rw [applyWrites_eq_map]
  intro p hp b hb
  rw [List.mem_map] at hp
  obtain ⟨p0, hp0, rfl⟩ := hp
  unfold writesFn at hb
  cases hl : lastWrite ws p0.id with
  | none =>
    rw [hl] at hb
    exact h p0 hp0 b hb
  | some bs =>
    rw [hl] at hb
    exact hw (p0.id, bs) (lastWrite_mem hl) b hb

theorem delBillWrites_nonneg {ps : List Product} {items : List CartItem}
    (h : NonNegStocks ps) (hq : ∀ it ∈ items, 0 ≤ it.quantity) :
    ∀ w ∈ delBillWrites ps items, ∀ b ∈ w.2, 0 ≤ b.stock := by
  intro w hw b hb
  rw [delBillWrites, List.mem_filterMap] at hw
  obtain ⟨item, hitem, hres⟩ := hw
  cases hfp : findProduct ps item.productId with
  | none =>
    rw [hfp, Option.map_none'] at hres
    cases hres
  | some p =>
    rw [hfp, Option.map_some'] at hres
    injection hres with h'
    subst h'
    have hb' : b ∈ incBatches p.batches item.batchId item.quantity := hb
    rw [incBatches, List.mem_map] at hb'
    obtain ⟨b0, hb0, rfl⟩ := hb'
    have h0 := h p (findProduct_mem hfp) b0 hb0
    have hq0 := hq item hitem
    by_cases hid : b0.id = item.batchId
    · rw [if_pos hid]
      show 0 ≤ b0.stock + item.quantity
      omega
    · rw [if_neg hid]
      exact h0

theorem delPurchaseWrites_nonneg {ps : List Product} {items : List PurchaseLineItem}
    (h : NonNegStocks ps) :
    ∀ w ∈ delPurchaseWrites ps items, ∀ b ∈ w.2, 0 ≤ b.stock := by
  intro w hw b hb
  rw [delPurchaseWrites, List.mem_filterMap] at hw
  obtain ⟨item, hitem, hres⟩ := hw
  by_cases hguard : item.productId = "" ∨ item.batchId = ""
  · rw [if_pos hguard] at hres
    cases hres
  · rw [if_neg hguard] at hres
    cases hfp : findProduct ps item.productId with
    | none =>
      rw [hfp, Option.map_none'] at hres
      cases hres
    | some p =>
      rw [hfp, Option.map_some'] at hres
      injection hres with h'
      subst h'
      have hb' : b ∈ p.batches.map fun b =>
          if b.id = item.batchId then
            { b with stock := if b.stock - item.quantity < 0 then 0
              else b.stock - item.quantity }
          else b := hb
      rw [List.mem_map] at hb'
      obtain ⟨b0, hb0, rfl⟩ := hb'
      have h0 := h p (findProduct_mem hfp) b0 hb0
      by_cases hid : b0.id = item.batchId
      · rw [if_pos hid]
        show 0 ≤ (if b0.stock - item.quantity < 0 then 0 else b0.stock - item.quantity)
        by_cases hcl : b0.stock - item.quantity < 0
        · rw [if_pos hcl]
        · rw [if_neg hcl]
          omega
      · rw [if_neg hid]
        exact h0

theorem nonNeg_applyProductWrite {ps : List Product} {w : ProductWrite}
    (h : NonNegStocks ps) (hw : WriteNonNeg w) :
    NonNegStocks (applyProductWrite ps w) := by
  cases w with
  | create p =>
    rw [applyProductWrite]
    split
    · intro x hx b hb
      rw [List.mem_map] at hx
      obtain ⟨x0, hx0, rfl⟩ := hx
      by_cases hid : x0.id = p.id
      · rw [if_pos hid] at hb
        exact hw b hb
      · rw [if_neg hid] at hb
        exact h x0 hx0 b hb
    · intro x hx b hb
      rcases List.mem_append.1 hx with hx | hx
      · exact h x hx b hb
      · rw [List.mem_singleton] at hx
        subst hx
        exact hw b hb
  | replace pid bs =>
    intro x hx b hb
    have hx' : x ∈ ps.map fun q => if q.id = pid then { q with batches := bs } else q := hx
    rw [List.mem_map] at hx'
    obtain ⟨x0, hx0, rfl⟩ := hx'
    by_cases hid : x0.id = pid
    · rw [if_pos hid] at hb
      exact hw b hb
    · rw [if_neg hid] at hb
      exact h x0 hx0 b hb
  | union pid nb =>
    intro x hx b hb
    have hx' : x ∈ ps.map fun q =>
        if q.id = pid then
          { q with batches := if nb ∈ q.batches then q.batches else q.batches ++ [nb] }
        else q := hx
    rw [List.mem_map] at hx'
    obtain ⟨x0, hx0, rfl⟩ := hx'
    by_cases hid : x0.id = pid
    · rw [if_pos hid] at hb
      by_cases hin : nb ∈ x0.batches
      · rw [if_pos hin] at hb
        exact h x0 hx0 b hb
      · rw [if_neg hin] at hb
        rcases List.mem_append.1 hb with hb | hb
        · exact h x0 hx0 b hb
        · rw [List.mem_singleton] at hb
          subst hb
          exact hw
    · rw [if_neg hid] at hb
      exact h x0 hx0 b hb

theorem nonNeg_applyProductWrites {ws : List ProductWrite} :
    ∀ {ps : List Product}, NonNegStocks ps → (∀ w ∈ ws, WriteNonNeg w) →
      NonNegStocks (applyProductWrites ps ws) := by
  induction ws with
  | nil =>
    intro ps h _
    exact h
  | cons w rest ih =>
    intro ps h hw
    have heq : applyProductWrites ps (w :: rest)
        = applyProductWrites (applyProductWrite ps w) rest := rfl
    rw [heq]
    exact ih (nonNeg_applyProductWrite h (hw w (List.mem_cons_self _ _)))
      fun w' hw' => hw w' (List.mem_cons_of_mem _ hw')

theorem addPurchaseLine_writes_nonneg {ps : List Product} {ctr : Nat}
    {item : PurchaseLineItem} (h : NonNegStocks ps) (hq : 0 ≤ item.quantity) :
    ∀ w ∈ (addPurchaseLine ps ctr item).writes, WriteNonNeg w := by
  intro w hw
  by_cases hnew : item.isNewProduct = true
  · simp only [addPurchaseLine, hnew, if_true, List.mem_singleton] at hw
    subst hw
    intro b hb
    simp only [newProductOfLine, List.mem_singleton] at hb
    subst hb
    exact hq
  · by_cases hid : item.productId ≠ ""
    · cases hfp : findProduct ps item.productId with
      | none =>
        simp only [addPurchaseLine, hnew, Bool.false_eq_true, if_false, hfp] at hw
        rw [if_pos hid] at hw
        cases hw
      | some p =>
        cases hfb : p.batches.find? (fun b => decide (b.batchNumber = item.batchNumber)) with
        | some eb =>
          simp only [addPurchaseLine, hnew, Bool.false_eq_true, if_false, hfp, hfb] at hw
          rw [if_pos hid] at hw
          simp only [List.mem_singleton] at hw
          subst hw
          intro b hb
          rw [List.mem_map] at hb
          obtain ⟨b0, hb0, rfl⟩ := hb
          have h0 := h p (findProduct_mem hfp) b0 hb0
          by_cases hbid : b0.id = eb.id
          · rw [if_pos hbid]
            show 0 ≤ b0.stock + item.quantity
            omega
          · rw [if_neg hbid]
            exact h0
        | none =>
          simp only [addPurchaseLine, hnew, Bool.false_eq_true, if_false, hfp, hfb] at hw
          rw [if_pos hid] at hw
          simp only [List.mem_singleton] at hw
          subst hw
          exact hq
    · simp only [addPurchaseLine, hnew, Bool.false_eq_true, if_false] at hw
      rw [if_neg hid] at hw
      cases hw

theorem addPurchaseItems_writes_nonneg {ps : List Product} (h : NonNegStocks ps) :
    ∀ (items : List PurchaseLineItem) (ctr : Nat), (∀ it ∈ items, 0 ≤ it.quantity) →
      ∀ w ∈ (addPurchaseItems ps items ctr).writes, WriteNonNeg w := by
  intro items
  induction items with
  | nil =>
    intro ctr _ w hw
    cases hw
  | cons item rest ih =>
    intro ctr hq w hw
    rw [addPurchaseItems] at hw
    simp only [List.mem_append] at hw
    rcases hw with hw | hw
    · exact addPurchaseLine_writes_nonneg h (hq item (List.mem_cons_self _ _)) w hw
    · exact ih _ (fun it hit => hq it (List.mem_cons_of_mem _ hit)) w hw

theorem applyStage_creates_nonneg {ps : List Product} :
    ∀ (items : List PurchaseLineItem) (st : ApplyStageState),
      (∀ w ∈ st.creates, WriteNonNeg w) → (∀ it ∈ items, 0 ≤ it.quantity) →
      ∀ w ∈ (applyStage ps items st).creates, WriteNonNeg w := by
  intro items
  induction items with
  | nil =>
    intro st hst _ w hw
    exact hst w hw
  | cons item rest ih =>
    intro st hst hq w hw
    have hqr : ∀ it ∈ rest, 0 ≤ it.quantity :=
      fun it hit => hq it (List.mem_cons_of_mem _ hit)
    by_cases hnew : item.isNewProduct = true
    · simp only [applyStage, hnew, if_true] at hw
      refine ih _ ?_ hqr w hw
      intro w' hw'
      rcases List.mem_append.1 hw' with hw' | hw'
      · exact hst w' hw'
      · rw [List.mem_singleton] at hw'
        subst hw'
        intro b hb
        simp only [newProductOfLine, List.mem_singleton] at hb
        subst hb
        exact hq item (List.mem_cons_self _ _)
    · by_cases hid : item.productId ≠ ""
      · cases hgm : getMutableProduct ps st.m item.productId with
        | none =>
          simp only [applyStage, hnew, Bool.false_eq_true, if_false, hgm] at hw
          rw [if_pos hid] at hw
          exact ih _ hst hqr w hw
        | some pm =>
          obtain ⟨p, m'⟩ := pm
          cases hfb : p.batches.find? (fun b => decide (b.batchNumber = item.batchNumber)) with
          | some hit =>
            simp only [applyStage, hnew, Bool.false_eq_true, if_false, hgm, hfb] at hw
            rw [if_pos hid] at hw
            refine ih _ ?_ hqr w hw
            exact hst
          | none =>
            simp only [applyStage, hnew, Bool.false_eq_true, if_false, hgm, hfb] at hw
            rw [if_pos hid] at hw
            refine ih _ ?_ hqr w hw
            exact hst
      · simp only [applyStage, hnew, Bool.false_eq_true, if_false] at hw
        rw [if_neg hid] at hw
        refine ih _ ?_ hqr w hw
        exact hst

/-- **C1 (amended).** Under non-negative input quantities, every committed
operation *except bill generation* preserves non-negative stocks: a
committed bill edit leaves only non-negative stocks (it rejects otherwise),
bill deletion adds quantities back, purchase save adds stock or creates
batches with the line quantity, purchase edit clamps at zero before its
single commit, and purchase deletion clamps at zero.  Bill generation
performs no floor check and is the exception (see the counterexample). -/
theorem c1_nonneg_preserved_except_generate (ps : List Product) (h : NonNegStocks ps) :
    (∀ orig upd ps', updateBillProducts ps orig upd = some ps' → NonNegStocks ps') ∧
    (∀ items : List CartItem, (∀ it ∈ items, 0 ≤ it.quantity) →
      NonNegStocks (deleteBillProducts ps items)) ∧
    (∀ (items : List PurchaseLineItem) (ctr : Nat), (∀ it ∈ items, 0 ≤ it.quantity) →
      NonNegStocks (addPurchaseProducts ps items ctr)) ∧
    (∀ (origItems updItems : List PurchaseLineItem) (ctr : Nat),
      (∀ it ∈ updItems, 0 ≤ it.quantity) →
      NonNegStocks (updatePurchaseProducts ps origItems updItems ctr)) ∧
    (∀ items : List PurchaseLineItem, NonNegStocks (deletePurchaseProducts ps items)) := by
  refine ⟨?_, ?_, ?_, ?_, ?_⟩
  · intro orig upd ps' hps'
    rw [updateBillProducts] at hps'
    cases hws : updateBillWrites ps (stockChangeList orig upd) with
    | none =>
      rw [hws] at hps'
      cases hps'
    | some ws =>
      rw [hws] at hps'
      injection hps' with h'
      subst h'
      exact nonNeg_applyWrites h (updateBillWrites_sound ps _ ws hws).1
  · intro items hq
    exact nonNeg_applyWrites h (delBillWrites_nonneg h hq)
  · intro items ctr hq
    exact nonNeg_applyProductWrites h (addPurchaseItems_writes_nonneg h items ctr hq)
  · intro origItems updItems ctr hq
    show NonNegStocks (applyProductWrites ps _)
    apply nonNeg_applyProductWrites h
    intro w hw
    rcases List.mem_append.1 hw with hw | hw
    · exact applyStage_creates_nonneg updItems _
        (fun w' hw' => absurd hw' (List.not_mem_nil w')) hq w hw
    · rw [List.mem_map] at hw
      obtain ⟨e, he, rfl⟩ := hw
      exact clampBatches_nonneg e.2.batches
  · intro items
    exact nonNeg_applyWrites h (delPurchaseWrites_nonneg h)

/-- **C1 (counterexample).** `handleGenerateBill` performs no stock floor
check: selling one unit of a batch whose stock is 0 commits stock −1, so the
claimed invariant fails after a committed bill generation. -/
theorem c1_generate_negative_stock :
    generateBillProducts [exProduct "p" [exBatch "x" "N1" 0]] [exCartItem "p" "x" 1]
      = [exProduct "p" [exBatch "x" "N1" (-1)]] ∧
    ¬ NonNegStocks (generateBillProducts [exProduct "p" [exBatch "x" "N1" 0]]
        [exCartItem "p" "x" 1]) := by
  have h1 : generateBillProducts [exProduct "p" [exBatch "x" "N1" 0]] [exCartItem "p" "x" 1]
      = [exProduct "p" [exBatch "x" "N1" (-1)]] := by decide
  refine ⟨h1, ?_⟩
  intro hN
  have h2 := hN (exProduct "p" [exBatch "x" "N1" (-1)])
    (by rw [h1]; exact List.mem_cons_self _ _)
    (exBatch "x" "N1" (-1)) (List.mem_cons_self _ _)
  exact absurd h2 (by decide)

/-- Witness for the amended C1 at concrete inputs for each operation. -/
theorem c1_nonneg_preserved_witness :
    NonNegStocks [exProduct "p" [exBatch "x" "N1" 6]] ∧
    NonNegStocks (deleteBillProducts [exProduct "p" [exBatch "x" "N1" 5]]
      [exCartItem "p" "x" 2]) ∧
    NonNegStocks (addPurchaseProducts [exProduct "p" [exBatch "x" "N1" 5]]
      [exLine "p" "x" "N1" 3] 0) ∧
    NonNegStocks (updatePurchaseProducts [exProduct "p" [exBatch "x" "N1" 5]]
      [exLine "p" "x" "N1" 3] [exLine "p" "x" "N1" 1] 0) ∧
    NonNegStocks (deletePurchaseProducts [exProduct "p" [exBatch "x" "N1" 5]]
      [exLine "p" "x" "N1" 9]) := by
  have h0 : NonNegStocks [exProduct "p" [exBatch "x" "N1" 5]] := by
    intro p hp b hb
    rw [List.mem_singleton] at hp
    subst hp
    have hb' : b ∈ [exBatch "x" "N1" 5] := hb
    rw [List.mem_singleton] at hb'
    subst hb'
    decide
  have hc := c1_nonneg_preserved_except_generate [exProduct "p" [exBatch "x" "N1" 5]] h0
  refine ⟨?_, ?_, ?_, ?_, ?_⟩
  · exact hc.1 [exCartItem "p" "x" 2] [exCartItem "p" "x" 1]
      [exProduct "p" [exBatch "x" "N1" 6]] (by decide)
  · exact hc.2.1 [exCartItem "p" "x" 2] (by decide)
  · exact hc.2.2.1 [exLine "p" "x" "N1" 3] 0 (by decide)
  · exact hc.2.2.2.1 [exLine "p" "x" "N1" 3] [exLine "p" "x" "N1" 1] 0 (by decide)
  · exact hc.2.2.2.2 [exLine "p" "x" "N1" 9]

/-! ## C4: purchase edit revert/apply -/

theorem modifyFirstBatch_append (sel : Batch → Bool) (f : Batch → Batch)
    (pre : List Batch) (Y : Batch) (post : List Batch)
    (hpre : ∀ b ∈ pre, sel b = false) (hY : sel Y = true) :
    modifyFirstBatch sel f (pre ++ Y :: post) = pre ++ f Y :: post := by
  induction pre with
  | nil =>
    rw [List.nil_append, List.nil_append, modifyFirstBatch, if_pos hY]
  | cons b rest ih =>
    have hb := hpre b (List.mem_cons_self b rest)
    rw [List.cons_append, modifyFirstBatch, if_neg (by simp [hb]), List.cons_append,
      ih fun x hx => hpre x (List.mem_cons_of_mem b hx)]

theorem find?_batches_append (sel : Batch → Bool)
    (pre : List Batch) (Y : Batch) (post : List Batch)
    (hpre : ∀ b ∈ pre, sel b = false) (hY : sel Y = true) :
    (pre ++ Y :: post).find? sel = some Y := by
  induction pre with
  | nil =>
    rw [List.nil_append]
    exact List.find?_cons_of_pos _ hY
  | cons b rest ih =>
    have hb := hpre b (List.mem_cons_self b rest)
    rw [List.cons_append, List.find?_cons_of_neg _ (by simp [hb])]
    exact ih fun x hx => hpre x (List.mem_cons_of_mem b hx)

theorem mapSet_single (pid : String) (p q : Product) :
    mapSet [(pid, p)] pid q = [(pid, q)] := by
  rw [mapSet, List.map_cons, if_pos rfl, List.map_nil]

theorem mapSet_single_of_eq (pid₁ pid₂ : String) (p q : Product) (h : pid₁ = pid₂) :
    mapSet [(pid₁, p)] pid₂ q = [(pid₁, q)] := by
  subst h
  exact mapSet_single pid₁ p q

theorem revertStage_nil (ps : List Product) (m : ProductMap) :
    revertStage ps [] m = m := rfl

theorem applyStage_nil (ps : List Product) (st : ApplyStageState) :
    applyStage ps [] st = st := rfl

theorem clampBatches_of_nonneg : ∀ (bs : List Batch), (∀ b ∈ bs, 0 ≤ b.stock) →
    clampBatches bs = bs := by
  intro bs
  induction bs with
  | nil =>
    intro _
    rfl
  | cons b rest ih =>
    intro h
    rw [clampBatches, List.map_cons,
      if_neg (Int.not_lt.2 (h b (List.mem_cons_self b rest)))]
    rw [show List.map (fun b => if b.stock < 0 then { b with stock := 0 } else b) rest
        = clampBatches rest from rfl]
    rw [ih fun x hx => h x (List.mem_cons_of_mem b hx)]

/-- **C4.** Editing a single-line purchase on an existing batch equals:
revert the original line's quantity from the batch of the *current* product
snapshot, re-resolve the updated line (by batch number) against that
reverted in-memory copy, clamp negative stock to zero, and commit once; the
batch keeps its id, takes the updated line's mrp/purchasePrice/expiryDate,
and its stock ends at `current − origQty + newQty` (clamped at 0). -/
theorem c4_purchase_edit_revert_apply
    (ps : List Product) (P : Product) (pre post : List Batch) (Y : Batch)
    (l₀ l₁ : PurchaseLineItem) (ctr : Nat)
    (hfind : findProduct ps P.id = some P)
    (hbat : P.batches = pre ++ Y :: post)
    (hYid : Y.id ≠ "") (hPid : P.id ≠ "")
    (hpreid : ∀ b ∈ pre, b.id ≠ Y.id)
    (hprenum : ∀ b ∈ pre, b.batchNumber ≠ Y.batchNumber)
    (hnn : ∀ b ∈ pre ++ post, 0 ≤ b.stock)
    (h₀p : l₀.productId = P.id) (h₀b : l₀.batchId = Y.id)
    (h₁new : l₁.isNewProduct = false) (h₁p : l₁.productId = P.id)
    (h₁n : l₁.batchNumber = Y.batchNumber) :
    updatePurchaseOutcome ps [l₀] [l₁] ctr
      = (setBatches ps P.id (pre ++
          ⟨Y.id, Y.batchNumber, l₁.expiryDate,
            if Y.stock - l₀.quantity + l₁.quantity < 0 then 0
            else Y.stock - l₀.quantity + l₁.quantity,
            l₁.mrp, l₁.purchasePrice⟩ :: post),
         [{ l₁ with batchId := Y.id }]) := by
  have hguard : ¬ (l₀.productId = "" ∨ l₀.batchId = "") := by
    rw [h₀p, h₀b]
    exact not_or.2 ⟨hPid, hYid⟩
  have hg0 : getMutableProduct ps [] l₀.productId = some (P, [(l₀.productId, P)]) := by
    rw [getMutableProduct, show mapFind [] l₀.productId = none from rfl, h₀p, hfind]
    rfl
  have hY₁ : modifyFirstBatch (fun b => decide (b.id = l₀.batchId))
      (fun b => { b with stock := b.stock - l₀.quantity }) P.batches
      = pre ++ { Y with stock := Y.stock - l₀.quantity } :: post := by
    rw [hbat]
    refine modifyFirstBatch_append _ _ pre Y post ?_ ?_
    · intro b hb
      simp [h₀b, hpreid b hb]
    · simp [h₀b]
  have hrev : revertStage ps [l₀] []
      = [(l₀.productId,
          { P with batches := pre ++ { Y with stock := Y.stock - l₀.quantity } :: post })] := by
    rw [revertStage, if_neg hguard]
    simp only [hg0, hY₁, revertStage_nil, mapSet_single]
  have hg1 : getMutableProduct ps
      [(l₀.productId,
        { P with batches := pre ++ { Y with stock := Y.stock - l₀.quantity } :: post })]
      l₁.productId
      = some ({ P with batches := pre ++ { Y with stock := Y.stock - l₀.quantity } :: post },
          [(l₀.productId,
            { P with batches := pre ++ { Y with stock := Y.stock - l₀.quantity } :: post })]) := by
    rw [getMutableProduct]
    have hmf : mapFind
        [(l₀.productId,
          { P with batches := pre ++ { Y with stock := Y.stock - l₀.quantity } :: post })]
        l₁.productId
        = some { P with batches := pre ++ { Y with stock := Y.stock - l₀.quantity } :: post } := by
      rw [mapFind, List.find?_cons_of_pos _ (by simp [h₀p, h₁p])]
      rfl
    rw [hmf]
  have hfb : (pre ++ { Y with stock := Y.stock - l₀.quantity } :: post).find?
      (fun b => decide (b.batchNumber = l₁.batchNumber))
      = some { Y with stock := Y.stock - l₀.quantity } := by
    refine find?_batches_append _ pre _ post ?_ ?_
    · intro b hb
      simp [h₁n, hprenum b hb]
    · simp [h₁n]
  have hY₂ : modifyFirstBatch (fun b => decide (b.batchNumber = l₁.batchNumber))
      (fun b => { b with
        stock := b.stock + l₁.quantity
        mrp := l₁.mrp
        purchasePrice := l₁.purchasePrice
        expiryDate := l₁.expiryDate })
      (pre ++ { Y with stock := Y.stock - l₀.quantity } :: post)
      = pre ++ ⟨Y.id, Y.batchNumber, l₁.expiryDate, Y.stock - l₀.quantity + l₁.quantity,
          l₁.mrp, l₁.purchasePrice⟩ :: post := by
    refine modifyFirstBatch_append _ _ pre _ post ?_ ?_
    · intro b hb
      simp [h₁n, hprenum b hb]
    · simp [h₁n]
  have hnew1 : (l₁.isNewProduct = true) = False := by
    rw [h₁new]
    simp
  have hne1 : (l₁.productId ≠ "") = True := by
    rw [h₁p]
    simp [hPid]
  have happ : applyStage ps [l₁]
      { m := [(l₀.productId,
          { P with batches := pre ++ { Y with stock := Y.stock - l₀.quantity } :: post })],
        ctr := ctr, creates := [], outItems := [] }
      = { m := [(l₀.productId,
            { P with batches := pre ++
              ⟨Y.id, Y.batchNumber, l₁.expiryDate, Y.stock - l₀.quantity + l₁.quantity,
                l₁.mrp, l₁.purchasePrice⟩ :: post })],
          ctr := ctr, creates := [], outItems := [{ l₁ with batchId := Y.id }] } := by
    rw [applyStage]
    simp only [hnew1, if_false, hne1, if_true, hg1, hfb, hY₂, applyStage_nil]
    rw [mapSet_single_of_eq _ _ _ _ (h₀p.trans h₁p.symm)]
    rfl
  have hclamp : clampBatches (pre ++
      ⟨Y.id, Y.batchNumber, l₁.expiryDate, Y.stock - l₀.quantity + l₁.quantity,
        l₁.mrp, l₁.purchasePrice⟩ :: post)
      = pre ++ ⟨Y.id, Y.batchNumber, l₁.expiryDate,
          if Y.stock - l₀.quantity + l₁.quantity < 0 then 0
          else Y.stock - l₀.quantity + l₁.quantity,
          l₁.mrp, l₁.purchasePrice⟩ :: post := by
    rw [clampBatches, List.map_append, List.map_cons]
    have hpre' : List.map (fun b => if b.stock < 0 then { b with stock := 0 } else b) pre
        = pre := by
      have := clampBatches_of_nonneg pre fun b hb => hnn b (List.mem_append.2 (Or.inl hb))
      exact this
    have hpost' : List.map (fun b => if b.stock < 0 then { b with stock := 0 } else b) post
        = post := by
      have := clampBatches_of_nonneg post fun b hb => hnn b (List.mem_append.2 (Or.inr hb))
      exact this
    rw [hpre', hpost']
    by_cases hc : Y.stock - l₀.quantity + l₁.quantity < 0
    · rw [if_pos hc]
      simp [hc]
    · rw [if_neg hc]
      simp [hc]
  rw [updatePurchaseOutcome]
  simp only [hrev, happ, List.map_cons, List.map_nil, List.nil_append]
  rw [hclamp, h₀p]
  rfl

/-- Witness for C4 at the spec's example: a single-line purchase of qty 4
on batch `y` (current stock 4) edited to qty 6 leaves stock 4 − 4 + 6 = 6. -/
theorem c4_purchase_edit_revert_apply_witness :
    updatePurchaseOutcome [exProduct "p" [exBatch "y" "NY" 4]]
        [exLine "p" "y" "NY" 4] [exLine "p" "y" "NY" 6] 0
      = ([exProduct "p" [⟨"y", "NY", "2027-02", 6, 11, 9⟩]],
         [{ exLine "p" "y" "NY" 6 with batchId := "y" }]) := by
  have h := c4_purchase_edit_revert_apply [exProduct "p" [exBatch "y" "NY" 4]]
    (exProduct "p" [exBatch "y" "NY" 4]) [] [] (exBatch "y" "NY" 4)
    (exLine "p" "y" "NY" 4) (exLine "p" "y" "NY" 6) 0
    (by decide) (by decide) (by decide) (by decide)
    (by decide) (by decide) (by decide) (by decide)
    (by decide) (by decide) (by decide) (by decide)
  exact h.trans (by decide)

/-! ## C6/C7: purchase batch resolution -/

theorem applyProductWrites_single (ps : List Product) (w : ProductWrite) :
    applyProductWrites ps [w] = applyProductWrite ps w := rfl

theorem findProduct_setBatches (ps : List Product) (pid : String) (bs : List Batch)
    (q : String) :
    findProduct (setBatches ps pid bs) q
      = (findProduct ps q).map fun x => if x.id = pid then { x with batches := bs } else x :=
  findP_map ps _ q (writeFn_id pid bs)

theorem findProduct_union (ps : List Product) (pid : String) (nb : Batch) (q : String) :
    findProduct (applyProductWrite ps (.union pid nb)) q
      = (findProduct ps q).map fun x =>
          if x.id = pid then
            { x with batches := if nb ∈ x.batches then x.batches else x.batches ++ [nb] }
          else x := by
  refine findP_map ps _ q fun x => ?_
  by_cases h : x.id = pid
  · rw [if_pos h]
  · rw [if_neg h]

theorem map_update_by_id (pre : List Batch) (B : Batch) (post : List Batch)
    (f : Batch → Batch) (h : ∀ b ∈ pre ++ post, b.id ≠ B.id) :
    ((pre ++ B :: post).map fun b => if b.id = B.id then f b else b)
      = pre ++ f B :: post := by
  rw [List.map_append, List.map_cons, if_pos rfl]
  have hpre : (pre.map fun b => if b.id = B.id then f b else b) = pre := by
    have hcong : ∀ b ∈ pre, (if b.id = B.id then f b else b) = b :=
      fun b hb => if_neg (h b (List.mem_append.2 (Or.inl hb)))
    rw [List.map_congr_left hcong, List.map_id']
  have hpost : (post.map fun b => if b.id = B.id then f b else b) = post := by
    have hcong : ∀ b ∈ post, (if b.id = B.id then f b else b) = b :=
      fun b hb => if_neg (h b (List.mem_append.2 (Or.inr hb)))
    rw [List.map_congr_left hcong, List.map_id']
  rw [hpre, hpost]

theorem addPurchaseLine_existing (ps : List Product) (c : Nat) (l : PurchaseLineItem)
    (p : Product) (eb : Batch)
    (hnew : l.isNewProduct = false) (hpid : l.productId ≠ "")
    (hfp : findProduct ps l.productId = some p)
    (hfb : p.batches.find? (fun b => decide (b.batchNumber = l.batchNumber)) = some eb) :
    addPurchaseLine ps c l
      = { ctr := c
          writes := [.replace l.productId (p.batches.map fun b =>
            if b.id = eb.id then
              { b with
                stock := b.stock + l.quantity
                mrp := l.mrp
                purchasePrice := l.purchasePrice
                expiryDate := l.expiryDate }
            else b)]
          saved := some { l with batchId := eb.id } } := by
  rw [addPurchaseLine, if_neg (by simp [hnew]), if_pos hpid]
  simp only [hfp, hfb]

theorem addPurchaseLine_newBatch (ps : List Product) (c : Nat) (l : PurchaseLineItem)
    (p : Product)
    (hnew : l.isNewProduct = false) (hpid : l.productId ≠ "")
    (hfp : findProduct ps l.productId = some p)
    (hfb : p.batches.find? (fun b => decide (b.batchNumber = l.batchNumber)) = none) :
    addPurchaseLine ps c l
      = { ctr := c + 1
          writes := [.union l.productId (newBatchOfLine (freshBatchId c) l)]
          saved := some { l with batchId := freshBatchId c } } := by
  rw [addPurchaseLine, if_neg (by simp [hnew]), if_pos hpid]
  simp only [hfp, hfb]

theorem addPurchaseProducts_single (ps : List Product) (l : PurchaseLineItem) (c : Nat) :
    addPurchaseProducts ps [l] c = applyProductWrites ps (addPurchaseLine ps c l).writes := by
  rw [addPurchaseProducts]
  congr 1
  show (addPurchaseLine ps c l).writes ++ [] = _
  exact List.append_nil _

/-- **C6.** Applying the same purchase line twice (two committed
`handleAddPurchase` saves) with the same batch number against the same
product: whether the batch number is new (first save creates the batch,
second finds it by number) or already present (both saves find it), the
product ends with exactly one batch carrying that number and its stock
raised by exactly `2 × quantity` — no duplicate batch is created. -/
theorem c6_purchase_idempotent_batch_resolution
    (ps : List Product) (l : PurchaseLineItem) (c₁ c₂ : Nat) (P : Product)
    (hnew : l.isNewProduct = false) (hpid : l.productId ≠ "")
    (hfind : findProduct ps l.productId = some P) :
    ((∀ b ∈ P.batches, b.batchNumber ≠ l.batchNumber) →
     (∀ b ∈ P.batches, b.id ≠ freshBatchId c₁) →
      findProduct (addPurchaseProducts (addPurchaseProducts ps [l] c₁) [l] c₂) l.productId
        = some { P with batches := P.batches ++
            [{ newBatchOfLine (freshBatchId c₁) l with stock := l.quantity + l.quantity }] } ∧
      ((P.batches ++
          [{ newBatchOfLine (freshBatchId c₁) l with stock := l.quantity + l.quantity }]).countP
        fun b : Batch => decide (b.batchNumber = l.batchNumber)) = 1) ∧
    (∀ (pre : List Batch) (B : Batch) (post : List Batch),
      P.batches = pre ++ B :: post → B.batchNumber = l.batchNumber →
      (∀ b ∈ pre ++ post, b.batchNumber ≠ l.batchNumber) →
      (∀ b ∈ pre ++ post, b.id ≠ B.id) →
      findProduct (addPurchaseProducts (addPurchaseProducts ps [l] c₁) [l] c₂) l.productId
        = some { P with batches := pre ++
            ⟨B.id, B.batchNumber, l.expiryDate, B.stock + l.quantity + l.quantity,
              l.mrp, l.purchasePrice⟩ :: post } ∧
      ((pre ++ ⟨B.id, B.batchNumber, l.expiryDate, B.stock + l.quantity + l.quantity,
          l.mrp, l.purchasePrice⟩ :: post).countP
        fun b : Batch => decide (b.batchNumber = l.batchNumber)) = 1) := by
  have hPid : P.id = l.productId := findProduct_id hfind
  constructor
  · intro hnone hfid
    have hfbA : P.batches.find? (fun b => decide (b.batchNumber = l.batchNumber)) = none :=
      List.find?_eq_none.2 fun b hb => by simp [hnone b hb]
    have hps1 : addPurchaseProducts ps [l] c₁
        = applyProductWrite ps (.union l.productId (newBatchOfLine (freshBatchId c₁) l)) := by
      rw [addPurchaseProducts_single, addPurchaseLine_newBatch ps c₁ l P hnew hpid hfind hfbA]
      rfl
    have hnbmem : newBatchOfLine (freshBatchId c₁) l ∉ P.batches := fun hmem =>
      hnone _ hmem rfl
    have hfind1 : findProduct (addPurchaseProducts ps [l] c₁) l.productId
        = some { P with batches := P.batches ++ [newBatchOfLine (freshBatchId c₁) l] } := by
      rw [hps1, findProduct_union, hfind, Option.map_some']
      rw [if_pos hPid, if_neg hnbmem]
    have hfb2 : ({ P with batches := P.batches ++ [newBatchOfLine (freshBatchId c₁) l] }
          : Product).batches.find? (fun b => decide (b.batchNumber = l.batchNumber))
        = some (newBatchOfLine (freshBatchId c₁) l) := by
      show (P.batches ++ newBatchOfLine (freshBatchId c₁) l :: []).find? _ = _
      refine find?_batches_append _ P.batches _ [] ?_ (by simp [newBatchOfLine])
      intro b hb
      simp [hnone b hb]
    have hps2 : addPurchaseProducts (addPurchaseProducts ps [l] c₁) [l] c₂
        = setBatches (addPurchaseProducts ps [l] c₁) l.productId
            ((P.batches ++ [newBatchOfLine (freshBatchId c₁) l]).map fun b =>
              if b.id = (newBatchOfLine (freshBatchId c₁) l).id then
                { b with
                  stock := b.stock + l.quantity
                  mrp := l.mrp
                  purchasePrice := l.purchasePrice
                  expiryDate := l.expiryDate }
              else b) := by
      rw [addPurchaseProducts_single,
        addPurchaseLine_existing (addPurchaseProducts ps [l] c₁) c₂ l _ _ hnew hpid hfind1 hfb2]
      rfl
    have hmap : ((P.batches ++ [newBatchOfLine (freshBatchId c₁) l]).map fun b =>
          if b.id = (newBatchOfLine (freshBatchId c₁) l).id then
            { b with
              stock := b.stock + l.quantity
              mrp := l.mrp
              purchasePrice := l.purchasePrice
              expiryDate := l.expiryDate }
          else b)
        = P.batches ++
            [{ newBatchOfLine (freshBatchId c₁) l with stock := l.quantity + l.quantity }] := by
      rw [show P.batches ++ [newBatchOfLine (freshBatchId c₁) l]
          = P.batches ++ newBatchOfLine (freshBatchId c₁) l :: [] from rfl]
      rw [map_update_by_id P.batches (newBatchOfLine (freshBatchId c₁) l) [] _
        (fun b hb => hfid b (by simpa using hb))]
      rfl
    constructor
    · rw [hps2, hmap, findProduct_setBatches, hfind1, Option.map_some']
      rw [if_pos (show ({ P with batches := P.batches ++
          [newBatchOfLine (freshBatchId c₁) l] } : Product).id = l.productId from hPid)]
    · rw [List.countP_append, List.countP_eq_zero.2 fun b hb => by simp [hnone b hb]]
      simp [newBatchOfLine]
  · intro pre B post hbat hBn hothernum hotherid
    have hfbB : P.batches.find? (fun b => decide (b.batchNumber = l.batchNumber)) = some B := by
      rw [hbat]
      refine find?_batches_append _ pre B post ?_ (by simp [hBn])
      intro b hb
      simp [hothernum b (List.mem_append.2 (Or.inl hb))]
    have hps1 : addPurchaseProducts ps [l] c₁
        = setBatches ps l.productId (P.batches.map fun b =>
            if b.id = B.id then
              { b with
                stock := b.stock + l.quantity
                mrp := l.mrp
                purchasePrice := l.purchasePrice
                expiryDate := l.expiryDate }
            else b) := by
      rw [addPurchaseProducts_single,
        addPurchaseLine_existing ps c₁ l P B hnew hpid hfind hfbB]
      rfl
    have hmap1 : (P.batches.map fun b =>
          if b.id = B.id then
            { b with
              stock := b.stock + l.quantity
              mrp := l.mrp
              purchasePrice := l.purchasePrice
              expiryDate := l.expiryDate }
          else b)
        = pre ++ ⟨B.id, B.batchNumber, l.expiryDate, B.stock + l.quantity,
            l.mrp, l.purchasePrice⟩ :: post := by
      rw [hbat, map_update_by_id pre B post _ hotherid]
    have hfind1 : findProduct (addPurchaseProducts ps [l] c₁) l.productId
        = some { P with batches := pre ++ ⟨B.id, B.batchNumber, l.expiryDate,
            B.stock + l.quantity, l.mrp, l.purchasePrice⟩ :: post } := by
      rw [hps1, hmap1, findProduct_setBatches, hfind, Option.map_some', if_pos hPid]
    have hfb2 : ({ P with batches := pre ++ ⟨B.id, B.batchNumber, l.expiryDate,
          B.stock + l.quantity, l.mrp, l.purchasePrice⟩ :: post } : Product).batches.find?
          (fun b => decide (b.batchNumber = l.batchNumber))
        = some ⟨B.id, B.batchNumber, l.expiryDate, B.stock + l.quantity,
            l.mrp, l.purchasePrice⟩ := by
      show (pre ++ _ :: post).find? _ = _
      refine find?_batches_append _ pre _ post ?_ (by simp [hBn])
      intro b hb
      simp [hothernum b (List.mem_append.2 (Or.inl hb))]
    have hps2 : addPurchaseProducts (addPurchaseProducts ps [l] c₁) [l] c₂
        = setBatches (addPurchaseProducts ps [l] c₁) l.productId
            ((pre ++ ⟨B.id, B.batchNumber, l.expiryDate, B.stock + l.quantity,
              l.mrp, l.purchasePrice⟩ :: post).map fun b =>
              if b.id = B.id then
                { b with
                  stock := b.stock + l.quantity
                  mrp := l.mrp
                  purchasePrice := l.purchasePrice
                  expiryDate := l.expiryDate }
              else b) := by
      rw [addPurchaseProducts_single,
        addPurchaseLine_existing (addPurchaseProducts ps [l] c₁) c₂ l _ _ hnew hpid hfind1 hfb2]
      rfl
    have hmap2 : ((pre ++ ⟨B.id, B.batchNumber, l.expiryDate, B.stock + l.quantity,
          l.mrp, l.purchasePrice⟩ :: post).map fun b =>
          if b.id = B.id then
            { b with
              stock := b.stock + l.quantity
              mrp := l.mrp
              purchasePrice := l.purchasePrice
              expiryDate := l.expiryDate }
          else b)
        = pre ++ ⟨B.id, B.batchNumber, l.expiryDate, B.stock + l.quantity + l.quantity,
            l.mrp, l.purchasePrice⟩ :: post := by
      exact map_update_by_id pre ⟨B.id, B.batchNumber, l.expiryDate, B.stock + l.quantity,
        l.mrp, l.purchasePrice⟩ post _ (fun b hb => hotherid b hb)
    constructor
    · rw [hps2, hmap2, findProduct_setBatches, hfind1, Option.map_some']
      rw [if_pos (show ({ P with batches := pre ++ ⟨B.id, B.batchNumber, l.expiryDate,
          B.stock + l.quantity, l.mrp, l.purchasePrice⟩ :: post } : Product).id
          = l.productId from hPid)]
    · rw [List.countP_append,
        List.countP_eq_zero.2 fun b hb =>
          by simp [hothernum b (List.mem_append.2 (Or.inl hb))],
        List.countP_cons]
      rw [List.countP_eq_zero.2 fun b hb =>
          by simp [hothernum b (List.mem_append.2 (Or.inr hb))]]
      simp [hBn]

/-- Witness for `c6_purchase_idempotent_batch_resolution`: concrete runs of the
same purchase saved twice, once with the batch number absent from the product
(a fresh batch is created and then incremented) and once with it present
(the existing batch is incremented twice). -/
theorem c6_purchase_idempotent_batch_resolution_witness :
    (findProduct (addPurchaseProducts (addPurchaseProducts
          [exProduct "p1" [exBatch "b0" "N0" 5]] [exLine "p1" "bX" "NY" 3] 0)
          [exLine "p1" "bX" "NY" 3] 1) "p1"
        = some { exProduct "p1" [exBatch "b0" "N0" 5] with
            batches := (exProduct "p1" [exBatch "b0" "N0" 5]).batches ++
              [{ newBatchOfLine (freshBatchId 0) (exLine "p1" "bX" "NY" 3) with
                  stock := (exLine "p1" "bX" "NY" 3).quantity
                    + (exLine "p1" "bX" "NY" 3).quantity }] }) ∧
    (findProduct (addPurchaseProducts (addPurchaseProducts
          [exProduct "p2" [exBatch "bY" "NY" 5]] [exLine "p2" "bY" "NY" 3] 0)
          [exLine "p2" "bY" "NY" 3] 1) "p2"
        = some { exProduct "p2" [exBatch "bY" "NY" 5] with
            batches := [] ++ ⟨(exBatch "bY" "NY" 5).id, (exBatch "bY" "NY" 5).batchNumber,
              (exLine "p2" "bY" "NY" 3).expiryDate,
              (exBatch "bY" "NY" 5).stock + (exLine "p2" "bY" "NY" 3).quantity
                + (exLine "p2" "bY" "NY" 3).quantity,
              (exLine "p2" "bY" "NY" 3).mrp,
              (exLine "p2" "bY" "NY" 3).purchasePrice⟩ :: [] }) :=
  ⟨((c6_purchase_idempotent_batch_resolution [exProduct "p1" [exBatch "b0" "N0" 5]]
      (exLine "p1" "bX" "NY" 3) 0 1 (exProduct "p1" [exBatch "b0" "N0" 5])
      rfl (by decide) rfl).1 (by decide) (by decide)).1,
   ((c6_purchase_idempotent_batch_resolution [exProduct "p2" [exBatch "bY" "NY" 5]]
      (exLine "p2" "bY" "NY" 3) 0 1 (exProduct "p2" [exBatch "bY" "NY" 5])
      rfl (by decide) rfl).2 [] (exBatch "bY" "NY" 5) [] rfl rfl
      (by simp) (by simp)).1⟩

theorem addPurchaseItems_nil (ps : List Product) (c : Nat) :
    addPurchaseItems ps [] c = { ctr := c, writes := [], savedItems := [] } := rfl

theorem addPurchaseItems_cons (ps : List Product) (x : PurchaseLineItem)
    (rest : List PurchaseLineItem) (c : Nat) :
    addPurchaseItems ps (x :: rest) c
      = { ctr := (addPurchaseItems ps rest (addPurchaseLine ps c x).ctr).ctr
          writes := (addPurchaseLine ps c x).writes
            ++ (addPurchaseItems ps rest (addPurchaseLine ps c x).ctr).writes
          savedItems := (addPurchaseLine ps c x).saved.toList
            ++ (addPurchaseItems ps rest (addPurchaseLine ps c x).ctr).savedItems } := rfl

/-- The loop of `handleAddPurchase` processes a concatenation of line lists in
sequence: the writes and saved items concatenate and the id counter threads
through. -/
theorem addPurchaseItems_append (ps : List Product) (A B : List PurchaseLineItem) (c : Nat) :
    addPurchaseItems ps (A ++ B) c
      = { ctr := (addPurchaseItems ps B (addPurchaseItems ps A c).ctr).ctr
          writes := (addPurchaseItems ps A c).writes
            ++ (addPurchaseItems ps B (addPurchaseItems ps A c).ctr).writes
          savedItems := (addPurchaseItems ps A c).savedItems
            ++ (addPurchaseItems ps B (addPurchaseItems ps A c).ctr).savedItems } := by
  induction A generalizing c with
  | nil => simp [addPurchaseItems_nil]
  | cons x rest ih =>
    simp only [List.cons_append, addPurchaseItems_cons, ih, List.append_assoc]

theorem find?_append_right_none {α : Type} (l₁ l₂ : List α) (sel : α → Bool)
    (h : l₂.find? sel = none) : (l₁ ++ l₂).find? sel = l₁.find? sel := by
  induction l₁ with
  | nil => simpa using h
  | cons a t ih =>
    by_cases ha : sel a = true
    · rw [List.cons_append, List.find?_cons_of_pos _ ha, List.find?_cons_of_pos _ ha]
    · rw [List.cons_append, List.find?_cons_of_neg _ ha, List.find?_cons_of_neg _ ha]
      exact ih

/-- A committed write that does not target document `pid` leaves the result of
looking up `pid` unchanged. -/
theorem findProduct_applyProductWrite (ps : List Product) (w : ProductWrite)
    (pid : String) (h : writesTo pid w = false) :
    findProduct (applyProductWrite ps w) pid = findProduct ps pid := by
  cases w with
  | create p =>
    have hne : ¬ p.id = pid := by simpa [writesTo] using h
    show (if ps.any fun x => decide (x.id = p.id) then
        ps.map fun x => if x.id = p.id then p else x
      else ps ++ [p]).find? (fun x => decide (x.id = pid))
        = ps.find? (fun x => decide (x.id = pid))
    split
    · rw [findP_map ps _ pid (fun x => by by_cases hx : x.id = p.id <;> simp [hx])]
      cases hfp : ps.find? (fun x => decide (x.id = pid)) with
      | none => rfl
      | some q =>
        have hq : q.id = pid := by simpa using List.find?_some hfp
        rw [Option.map_some', if_neg (show ¬ q.id = p.id by rw [hq]; exact fun hc => hne hc.symm)]
    · exact find?_append_right_none ps [p] _
        (List.find?_cons_of_neg _ (by simpa using hne))
  | replace q bs =>
    have hne : ¬ q = pid := by simpa [writesTo] using h
    show findProduct (setBatches ps q bs) pid = findProduct ps pid
    rw [findProduct_setBatches]
    cases hfp : findProduct ps pid with
    | none => rfl
    | some x =>
      have hx : x.id = pid := findProduct_id hfp
      rw [Option.map_some', if_neg (show ¬ x.id = q by rw [hx]; exact fun hc => hne hc.symm)]
  | union q b =>
    have hne : ¬ q = pid := by simpa [writesTo] using h
    rw [findProduct_union]
    cases hfp : findProduct ps pid with
    | none => rfl
    | some x =>
      have hx : x.id = pid := findProduct_id hfp
      rw [Option.map_some', if_neg (show ¬ x.id = q by rw [hx]; exact fun hc => hne hc.symm)]

/-- Committed writes that never target `pid` preserve the lookup of `pid`. -/
theorem findProduct_applyProductWrites (ps : List Product) (ws : List ProductWrite)
    (pid : String) (h : ∀ w ∈ ws, writesTo pid w = false) :
    findProduct (applyProductWrites ps ws) pid = findProduct ps pid := by
  induction ws generalizing ps with
  | nil => rfl
  | cons w rest ih =>
    rw [show applyProductWrites ps (w :: rest)
        = applyProductWrites (applyProductWrite ps w) rest from rfl,
      ih _ (fun x hx => h x (List.mem_cons_of_mem w hx)),
      findProduct_applyProductWrite ps w pid (h w (List.mem_cons_self w rest))]

theorem applyProductWrites_append (ps : List Product) (w₁ w₂ : List ProductWrite) :
    applyProductWrites ps (w₁ ++ w₂)
      = applyProductWrites (applyProductWrites ps w₁) w₂ := by
  simp [applyProductWrites, List.foldl_append]

/-- **C7 (amended).** A purchase line on an existing product whose
`batchNumber` matches an existing batch of that product: saving the purchase
adds the line quantity to that batch's stock and overwrites its mrp,
purchasePrice and expiryDate with the line's values, keeping the batch id and
leaving all other batches unchanged — PROVIDED no other line of the purchase
stages a write on the same product document.  (Without that proviso the claim
fails: each line's replace write is computed from the pre-purchase snapshot,
so a later write to the same product discards the earlier line's delta.) -/
theorem c7_existing_batch_line
    (ps : List Product) (A B : List PurchaseLineItem) (l : PurchaseLineItem)
    (c : Nat) (P : Product) (pre : List Batch) (Bt : Batch) (post : List Batch)
    (hnew : l.isNewProduct = false) (hpid : l.productId ≠ "")
    (hfind : findProduct ps l.productId = some P)
    (hbat : P.batches = pre ++ Bt :: post)
    (hBn : Bt.batchNumber = l.batchNumber)
    (hprenum : ∀ b ∈ pre, b.batchNumber ≠ l.batchNumber)
    (hids : ∀ b ∈ pre ++ post, b.id ≠ Bt.id)
    (hA : ∀ w ∈ (addPurchaseItems ps A c).writes, writesTo l.productId w = false)
    (hB : ∀ w ∈ (addPurchaseItems ps B (addPurchaseItems ps A c).ctr).writes,
        writesTo l.productId w = false) :
    findProduct (addPurchaseProducts ps (A ++ l :: B) c) l.productId
      = some { P with batches := pre ++ ⟨Bt.id, Bt.batchNumber, l.expiryDate,
          Bt.stock + l.quantity, l.mrp, l.purchasePrice⟩ :: post } := by
  have hPid : P.id = l.productId := findProduct_id hfind
  have hfb : P.batches.find? (fun b => decide (b.batchNumber = l.batchNumber))
      = some Bt := by
    rw [hbat]
    refine find?_batches_append _ pre Bt post ?_ (by simp [hBn])
    intro b hb
    simp [hprenum b hb]
  have hline := addPurchaseLine_existing ps (addPurchaseItems ps A c).ctr l P Bt
    hnew hpid hfind hfb
  have hitems : (addPurchaseItems ps (A ++ l :: B) c).writes
      = (addPurchaseItems ps A c).writes
        ++ ((.replace l.productId (P.batches.map fun b =>
              if b.id = Bt.id then
                { b with
                  stock := b.stock + l.quantity
                  mrp := l.mrp
                  purchasePrice := l.purchasePrice
                  expiryDate := l.expiryDate }
              else b) : ProductWrite)
            :: (addPurchaseItems ps B (addPurchaseItems ps A c).ctr).writes) := by
    rw [addPurchaseItems_append, addPurchaseItems_cons, hline]
    simp
  have hupd : (P.batches.map fun b =>
        if b.id = Bt.id then
          { b with
            stock := b.stock + l.quantity
            mrp := l.mrp
            purchasePrice := l.purchasePrice
            expiryDate := l.expiryDate }
        else b)
      = pre ++ ⟨Bt.id, Bt.batchNumber, l.expiryDate, Bt.stock + l.quantity,
          l.mrp, l.purchasePrice⟩ :: post := by
    rw [hbat, map_update_by_id pre Bt post _ hids]
  rw [addPurchaseProducts, hitems,
    show (addPurchaseItems ps A c).writes
        ++ ((.replace l.productId (P.batches.map fun b =>
              if b.id = Bt.id then
                { b with
                  stock := b.stock + l.quantity
                  mrp := l.mrp
                  purchasePrice := l.purchasePrice
                  expiryDate := l.expiryDate }
              else b) : ProductWrite)
            :: (addPurchaseItems ps B (addPurchaseItems ps A c).ctr).writes)
      = ((addPurchaseItems ps A c).writes
          ++ [(.replace l.productId (P.batches.map fun b =>
              if b.id = Bt.id then
                { b with
                  stock := b.stock + l.quantity
                  mrp := l.mrp
                  purchasePrice := l.purchasePrice
                  expiryDate := l.expiryDate }
              else b) : ProductWrite)])
        ++ (addPurchaseItems ps B (addPurchaseItems ps A c).ctr).writes by
      rw [List.append_assoc]; rfl,
    applyProductWrites_append, applyProductWrites_append,
    findProduct_applyProductWrites _ _ _ hB, applyProductWrites_single]
  show findProduct (setBatches (applyProductWrites ps (addPurchaseItems ps A c).writes)
      l.productId _) l.productId = _
  rw [findProduct_setBatches, findProduct_applyProductWrites _ _ _ hA, hfind,
    Option.map_some', if_pos hPid, hupd]

/-- **C7 counterexample.** A purchase whose two lines hit the same product and
batch: the claim predicts each line adds its quantity (final stock
0 + 3 + 4 = 7), but each line's replace write is computed from the
pre-purchase snapshot and the later write overwrites the earlier one, so the
committed stock is 0 + 4 = 4 and the first line's quantity is lost. -/
theorem c7_counterexample :
    findProduct (addPurchaseProducts [exProduct "p" [exBatch "bY" "NY" 0]]
        [exLine "p" "" "NY" 3, exLine "p" "" "NY" 4] 0) "p"
      = some { exProduct "p" [exBatch "bY" "NY" 0] with
          batches := [⟨"bY", "NY", "2027-02", 4, 11, 9⟩] } ∧
    findProduct (addPurchaseProducts [exProduct "p" [exBatch "bY" "NY" 0]]
        [exLine "p" "" "NY" 3, exLine "p" "" "NY" 4] 0) "p"
      ≠ some { exProduct "p" [exBatch "bY" "NY" 0] with
          batches := [⟨"bY", "NY", "2027-02", 7, 11, 9⟩] } := by
  constructor
  · rfl
  · decide

/-- Witness for `c7_existing_batch_line`: a three-line purchase whose middle
line hits product `p`'s batch `NY`, while the surrounding lines write to an
unrelated product `q`. -/
theorem c7_existing_batch_line_witness :
    findProduct (addPurchaseProducts
        [exProduct "p" [exBatch "bY" "NY" 5], exProduct "q" [exBatch "bZ" "NZ" 1]]
        ([exLine "q" "" "NZ" 2] ++ exLine "p" "" "NY" 3 :: [exLine "q" "" "NZ" 1]) 0) "p"
      = some { exProduct "p" [exBatch "bY" "NY" 5] with
          batches := [] ++ ⟨(exBatch "bY" "NY" 5).id, (exBatch "bY" "NY" 5).batchNumber,
            (exLine "p" "" "NY" 3).expiryDate,
            (exBatch "bY" "NY" 5).stock + (exLine "p" "" "NY" 3).quantity,
            (exLine "p" "" "NY" 3).mrp, (exLine "p" "" "NY" 3).purchasePrice⟩ :: [] } :=
  c7_existing_batch_line
    [exProduct "p" [exBatch "bY" "NY" 5], exProduct "q" [exBatch "bZ" "NZ" 1]]
    [exLine "q" "" "NZ" 2] [exLine "q" "" "NZ" 1] (exLine "p" "" "NY" 3) 0
    (exProduct "p" [exBatch "bY" "NY" 5]) [] (exBatch "bY" "NY" 5) []
    rfl (by decide) rfl rfl rfl
    (by intro b hb; cases hb)
    (by intro b hb; cases hb)
    (by decide) (by decide)

end Pharma
